import Mathlib

/-!
Verification of the anchor-based patch engine of `edog.py`.

A document is modelled as its list of lines, i.e. the value of Python's
`content.split('\n')`; joining with `'\n'` is a bijection between strings
and lists of newline-free lines, so equality of line lists is exactly
byte-for-byte equality of documents.  File contents handled by the
structural transforms are modelled as their list of characters
(Python strings are sequences of code points).
-/

namespace Edog

/-- Python whitespace characters recognised by `str.split()` / `str.strip()`
(space, tab, newline, carriage return, vertical tab, form feed). -/
def isSpaceChar (c : Char) : Bool :=
  c == ' ' || c == '\t' || c == '\n' || c == '\r' || c == '\x0b' || c == '\x0c'

/-- One step of splitting a character list into whitespace-separated words. -/
def wordsStep (c : Char) (acc : List (List Char)) : List (List Char) :=
  if isSpaceChar c then [] :: acc
  else
    match acc with
    | [] => [[c]]
    | w :: rest => (c :: w) :: rest

/-- Python `text.split()` (no argument): maximal runs of non-whitespace. -/
def pyWords (cs : List Char) : List (List Char) :=
  (cs.foldr wordsStep []).filter (fun w => !w.isEmpty)

/-- `normalize_whitespace` from edog.py: `' '.join(text.split())`. -/
def normalize_whitespace (s : String) : String :=
  String.intercalate " " ((pyWords s.data).map String.mk)

/-- Python `s.strip()` with no argument: drop whitespace from both ends. -/
def pyStrip (s : String) : String :=
  String.mk (((s.data.dropWhile isSpaceChar).reverse.dropWhile isSpaceChar).reverse)

/-- Python's substring test `pat in hay` on strings, at the character level. -/
def isSubstr : List Char → List Char → Bool
  | pat, hay =>
    pat.isPrefixOf hay ||
      match hay with
      | [] => false
      | _ :: t => isSubstr pat t

/-- A wrap rule from the `SMART_PATTERNS` table: anchor text, context text
and the context search distance (always a non-negative int in the table). -/
structure PatternConfig where
  anchor : String
  context : String
  context_distance : Nat
deriving DecidableEq, Repr

/-- The per-line test of `find_anchor_line`: the whitespace-collapsed anchor
occurs in the whitespace-collapsed line (case-sensitive). -/
def anchorMatches (anchor line : String) : Bool :=
  isSubstr (normalize_whitespace anchor).data (normalize_whitespace line).data

/-- The enumerate loop of `find_anchor_line`, with the anchor already
normalised once, carrying the current index. -/
def findAnchorAux (na : String) : List String → Nat → Int
  | [], _ => -1
  | l :: ls, i =>
      if isSubstr na.data (normalize_whitespace l).data then (i : Int)
      else findAnchorAux na ls (i + 1)

/-- `find_anchor_line` from edog.py: index of the first line whose
whitespace-collapsed content contains the collapsed anchor, else `-1`. -/
def find_anchor_line (lines : List String) (anchor : String) : Int :=
  findAnchorAux (normalize_whitespace anchor) lines 0

/-- Python `s.lower()` at the character level (ASCII case folding,
which is all the rule table and C# sources exercise). -/
def pyLower (s : String) : String :=
  String.mk (s.data.map Char.toLower)

/-- The per-line test of `validate_context` (case-insensitive). -/
def contextMatches (context line : String) : Bool :=
  isSubstr (pyLower (normalize_whitespace context)).data
    (pyLower (normalize_whitespace line)).data

/-- `validate_context` from edog.py: scan `range(max(0, a - d), min(len, a + d + 1))`
for a case-insensitive whitespace-collapsed occurrence of the context
(the per-line test is `contextMatches`, with the context normalised once).
`a - d` on `Nat` is Python's `max(0, a - d)`. -/
def validate_context (lines : List String) (anchor_line : Nat)
    (context : String) (max_distance : Nat) : Bool :=
  let start := anchor_line - max_distance
  let stop := min lines.length (anchor_line + max_distance + 1)
  (List.range' start (stop - start)).any
    (fun i => contextMatches context (lines.getD i ""))

/-- `is_already_wrapped` from edog.py: the previous line, stripped, starts
with `#if EDOG_DEVMODE`. -/
def is_already_wrapped (lines : List String) (anchor_line : Int) : Bool :=
  if anchor_line ≤ 0 then false
  else "#if EDOG_DEVMODE".data.isPrefixOf (pyStrip (lines.getD (anchor_line.toNat - 1) "")).data

/-- The fixed guard-open line inserted by `apply_smart_pattern`. -/
def guardOpenLine : String := "#if EDOG_DEVMODE  // EDOG DevMode - disabled"

/-- `indent = len(line) - len(line.lstrip())` from `apply_smart_pattern`. -/
def leadingIndentLen (s : String) : Nat :=
  s.data.length - (s.data.dropWhile isSpaceChar).length

/-- `apply_smart_pattern` from edog.py at the line level.  The source sets
`lines[anchor_line]` to the three-line string
`"#if EDOG_DEVMODE  // EDOG DevMode - disabled\n" + original + "\n" + indent + "#endif"`
and joins with `'\n'`; after the split/join bijection this is exactly the
three-line splice below. -/
def apply_smart_pattern (lines : List String) (cfg : PatternConfig) :
    List String × String :=
  let anchor_line := find_anchor_line lines cfg.anchor
  if anchor_line = -1 then (lines, "anchor_not_found")
  else if !validate_context lines anchor_line.toNat cfg.context cfg.context_distance then
    (lines, "context_mismatch")
  else if is_already_wrapped lines anchor_line then (lines, "already_applied")
  else
    let i := anchor_line.toNat
    let original_line := lines.getD i ""
    let indent_str := String.mk (original_line.data.take (leadingIndentLen original_line))
    (lines.take i ++ [guardOpenLine, original_line, indent_str ++ "#endif"] ++ lines.drop (i + 1),
     "applied")

/-- `revert_smart_pattern` from edog.py at the line level: find the anchor,
require the wrap, find `#endif` within the next two lines, then
`del lines[endif_line]; del lines[anchor_line - 1]`. -/
def revert_smart_pattern (lines : List String) (cfg : PatternConfig) :
    List String × Bool :=
  let anchor_line := find_anchor_line lines cfg.anchor
  if anchor_line = -1 then (lines, false)
  else if !is_already_wrapped lines anchor_line then (lines, false)
  else
    let i := anchor_line.toNat
    let stop := min lines.length (i + 3)
    match (List.range' (i + 1) (stop - (i + 1))).find?
        (fun j => "#endif".data.isPrefixOf (pyStrip (lines.getD j "")).data) with
    | none => (lines, false)
    | some endif_line => ((lines.eraseIdx endif_line).eraseIdx (i - 1), true)

/-! ### Basic lemmas about the text locator -/

lemma isSubstr_iff_isInfix (pat hay : List Char) : isSubstr pat hay = true ↔ pat <:+: hay := by
  induction hay with
  | nil =>
      simp only [isSubstr, List.infix_nil, Bool.or_eq_true, List.isPrefixOf_iff_prefix]
      simp [List.prefix_nil]
  | cons a t ih =>
      simp only [isSubstr, Bool.or_eq_true, List.isPrefixOf_iff_prefix, ih,
        List.infix_cons_iff]

/-- Characterisation of the `find_anchor_line` loop, for an arbitrary start
index: either every line fails the normalised-substring test and the result
is `-1`, or the result is `start + k` for the first matching offset `k`. -/
lemma findAnchorAux_spec (na : String) (lines : List String) (i : Nat) :
    (findAnchorAux na lines i = -1 ∧
        ∀ l ∈ lines, isSubstr na.data (normalize_whitespace l).data = false) ∨
    (∃ k : Nat, findAnchorAux na lines i = ((i + k : Nat) : Int) ∧ k < lines.length ∧
        isSubstr na.data (normalize_whitespace (lines.getD k "")).data = true ∧
        ∀ l ∈ lines.take k, isSubstr na.data (normalize_whitespace l).data = false) := by
  induction lines generalizing i with
  | nil => exact Or.inl ⟨rfl, by simp⟩
  | cons l ls ih =>
      by_cases h : isSubstr na.data (normalize_whitespace l).data = true
      · refine Or.inr ⟨0, ?_, by simp, by simpa using h, by simp⟩
        simp [findAnchorAux, h]
      · have hfalse : isSubstr na.data (normalize_whitespace l).data = false :=
          Bool.eq_false_iff.mpr h
        have hstep : findAnchorAux na (l :: ls) i = findAnchorAux na ls (i + 1) := by
          simp [findAnchorAux, hfalse]
        rcases ih (i + 1) with ⟨h1, h2⟩ | ⟨k, h1, h2, h3, h4⟩
        · refine Or.inl ⟨hstep.trans h1, ?_⟩
          intro x hx
          rcases List.mem_cons.mp hx with rfl | hx
          · exact hfalse
          · exact h2 x hx
        · refine Or.inr ⟨k + 1, ?_, by simpa using h2, by simpa using h3, ?_⟩
          · rw [hstep, h1]; congr 1; omega
          · intro x hx
            rcases List.mem_cons.mp (by simpa [List.take_cons] using hx) with rfl | hx
            · exact hfalse
            · exact h4 x hx

/-- `find_anchor_line` in terms of the per-line predicate `anchorMatches`. -/
lemma find_anchor_line_cases (lines : List String) (anchor : String) :
    (find_anchor_line lines anchor = -1 ∧ ∀ l ∈ lines, anchorMatches anchor l = false) ∨
    (∃ i : Nat, find_anchor_line lines anchor = (i : Int) ∧ i < lines.length ∧
        anchorMatches anchor (lines.getD i "") = true ∧
        ∀ l ∈ lines.take i, anchorMatches anchor l = false) := by
  simpa [find_anchor_line, anchorMatches] using
    findAnchorAux_spec (normalize_whitespace anchor) lines 0

lemma find_anchor_line_of_int (lines : List String) (anchor : String) (i : Nat)
    (h : find_anchor_line lines anchor = (i : Int)) :
    i < lines.length ∧ anchorMatches anchor (lines.getD i "") = true ∧
      ∀ l ∈ lines.take i, anchorMatches anchor l = false := by
  rcases find_anchor_line_cases lines anchor with ⟨h1, _⟩ | ⟨j, h1, h2, h3, h4⟩
  · rw [h1] at h; omega
  · rw [h1] at h
    have : j = i := by omega
    subst this
    exact ⟨h2, h3, h4⟩

lemma find_anchor_line_ne_neg_one (lines : List String) (anchor : String)
    (h : find_anchor_line lines anchor ≠ -1) :
    ∃ i : Nat, find_anchor_line lines anchor = (i : Int) := by
  rcases find_anchor_line_cases lines anchor with ⟨h1, _⟩ | ⟨i, h1, _⟩
  · exact absurd h1 h
  · exact ⟨i, h1⟩

lemma anchorMatches_iff (anchor line : String) :
    anchorMatches anchor line = true ↔
      (normalize_whitespace anchor).data <:+: (normalize_whitespace line).data :=
  isSubstr_iff_isInfix _ _

lemma getD_mem_take (l : List String) (j i : Nat) (hj : j < i) (hlen : j < l.length) :
    l.getD j "" ∈ l.take i := by
  have hjt : j < (l.take i).length := by
    simp only [List.length_take]
    omega
  have h1 : (l.take i)[j] = l[j] := List.getElem_take l
  have h2 := List.getElem_mem hjt
  rw [h1] at h2
  rwa [List.getD_eq_getElem l "" hlen]

lemma getD_mem (l : List String) (i : Nat) (hlen : i < l.length) :
    l.getD i "" ∈ l := by
  rw [List.getD_eq_getElem l "" hlen]
  exact List.getElem_mem hlen

/-- **C8**: `find_anchor_line` returns the smallest index whose line, after
collapsing every maximal whitespace run to a single space, contains the
equally collapsed anchor as a substring (case-sensitively, via list-infix of
the code points); when no line matches it returns `-1`. -/
theorem find_anchor_line_contract (lines : List String) (anchor : String) :
    (∀ i : Nat, find_anchor_line lines anchor = (i : Int) ↔
        (i < lines.length ∧
          (normalize_whitespace anchor).data <:+:
            (normalize_whitespace (lines.getD i "")).data ∧
          ∀ j < i, ¬ (normalize_whitespace anchor).data <:+:
              (normalize_whitespace (lines.getD j "")).data)) ∧
    (find_anchor_line lines anchor = -1 ↔
        ∀ l ∈ lines, ¬ (normalize_whitespace anchor).data <:+:
            (normalize_whitespace l).data) := by
  constructor
  · intro i
    constructor
    · intro h
      obtain ⟨hlen, hmatch, hfail⟩ := find_anchor_line_of_int lines anchor i h
      refine ⟨hlen, (anchorMatches_iff _ _).mp hmatch, ?_⟩
      intro j hj hinf
      have hj2 : j < lines.length := lt_trans hj hlen
      have hmt : anchorMatches anchor (lines.getD j "") = true :=
        (anchorMatches_iff _ _).mpr hinf
      have hf := hfail _ (getD_mem_take lines j i hj hj2)
      rw [hmt] at hf
      exact Bool.true_eq_false.mp hf
    · rintro ⟨hlen, hinf, hfirst⟩
      rcases find_anchor_line_cases lines anchor with ⟨h1, h2⟩ | ⟨j, h1, h2, h3, h4⟩
      · exfalso
        have := h2 _ (getD_mem lines i hlen)
        rw [(anchorMatches_iff _ _).mpr hinf] at this
        exact Bool.true_eq_false.mp this
      · rcases lt_trichotomy j i with hji | rfl | hij
        · exact absurd ((anchorMatches_iff _ _).mp h3) (hfirst j hji)
        · exact h1
        · exfalso
          have := h4 _ (getD_mem_take lines i j hij hlen)
          rw [(anchorMatches_iff _ _).mpr hinf] at this
          exact Bool.true_eq_false.mp this
  · constructor
    · intro h l hl hinf
      rcases find_anchor_line_cases lines anchor with ⟨_, h2⟩ | ⟨j, h1, _, _, _⟩
      · have := h2 l hl
        rw [(anchorMatches_iff _ _).mpr hinf] at this
        exact Bool.true_eq_false.mp this
      · rw [h1] at h; omega
    · intro h
      rcases find_anchor_line_cases lines anchor with ⟨h1, _⟩ | ⟨j, h1, h2, h3, _⟩
      · exact h1
      · exact absurd ((anchorMatches_iff _ _).mp h3) (h _ (getD_mem lines j h2))

theorem find_anchor_line_contract_witness :
    find_anchor_line ["foo", "a   b"] "a b" = (1 : Int) :=
  ((find_anchor_line_contract ["foo", "a   b"] "a b").1 1).mpr (by decide)

lemma contextMatches_iff (context line : String) :
    contextMatches context line = true ↔
      (pyLower (normalize_whitespace context)).data <:+:
        (pyLower (normalize_whitespace line)).data :=
  isSubstr_iff_isInfix _ _

lemma validate_context_eq_false (lines : List String) (i : Nat) (context : String)
    (d : Nat)
    (h : ∀ j, i - d ≤ j → j < lines.length → j < i + d + 1 →
        contextMatches context (lines.getD j "") = false) :
    validate_context lines i context d = false := by
  simp only [validate_context]
  rw [List.any_eq_false]
  intro x hx
  rw [List.mem_range'_1] at hx
  have h1 : i - d ≤ x := hx.1
  have h2 : x < min lines.length (i + d + 1) := by omega
  rw [h x h1 (by omega) (by omega)]
  simp

lemma validate_context_eq_true (lines : List String) (i : Nat) (context : String)
    (d : Nat) (j : Nat) (hj1 : i - d ≤ j) (hj2 : j < lines.length) (hj3 : j < i + d + 1)
    (h : contextMatches context (lines.getD j "") = true) :
    validate_context lines i context d = true := by
  simp only [validate_context]
  rw [List.any_eq_true]
  refine ⟨j, ?_, h⟩
  rw [List.mem_range'_1]
  omega

/-- **C4**: failed wrap application leaves the document untouched.  If no
line contains the collapsed anchor, the result is the input document with
status `anchor_not_found`; if the anchor is found at line `i` but the
collapsed, lower-cased context occurs nowhere within `context_distance`
lines of `i` (window clamped to the file), the result is the input document
with status `context_mismatch`. -/
theorem apply_smart_pattern_failure_unchanged (lines : List String) (cfg : PatternConfig) :
    ((∀ l ∈ lines, ¬ (normalize_whitespace cfg.anchor).data <:+:
          (normalize_whitespace l).data) →
        apply_smart_pattern lines cfg = (lines, "anchor_not_found")) ∧
    (∀ i : Nat, find_anchor_line lines cfg.anchor = (i : Int) →
        (∀ j, i - cfg.context_distance ≤ j → j < lines.length →
            j < i + cfg.context_distance + 1 →
            ¬ (pyLower (normalize_whitespace cfg.context)).data <:+:
                (pyLower (normalize_whitespace (lines.getD j ""))).data) →
        apply_smart_pattern lines cfg = (lines, "context_mismatch")) := by
  constructor
  · intro h
    have hfind : find_anchor_line lines cfg.anchor = -1 :=
      ((find_anchor_line_contract lines cfg.anchor).2).mpr h
    simp [apply_smart_pattern, hfind]
  · intro i hfind h
    have hval : validate_context lines i cfg.context cfg.context_distance = false := by
      refine validate_context_eq_false lines i cfg.context cfg.context_distance ?_
      intro j h1 h2 h3
      cases hb : contextMatches cfg.context (lines.getD j "") with
      | false => rfl
      | true => exact absurd ((contextMatches_iff _ _).mp hb) (h j h1 h2 h3)
    have hne : ¬((i : Int) = -1) := by omega
    simp [apply_smart_pattern, hfind, hne, Int.toNat_natCast, hval]

theorem apply_smart_pattern_failure_unchanged_witness :
    apply_smart_pattern ["class Foo \x7b"] ⟨"zzz", "ctx", 1⟩ =
      (["class Foo \x7b"], "anchor_not_found") ∧
    apply_smart_pattern ["    [Guard]", "    class Foo \x7b"] ⟨"[Guard]", "class Bar", 5⟩ =
      (["    [Guard]", "    class Foo \x7b"], "context_mismatch") :=
  ⟨(apply_smart_pattern_failure_unchanged ["class Foo \x7b"] ⟨"zzz", "ctx", 1⟩).1
      (by decide),
   (apply_smart_pattern_failure_unchanged ["    [Guard]", "    class Foo \x7b"]
      ⟨"[Guard]", "class Bar", 5⟩).2 0 (by decide) (by decide)⟩

lemma take_length_takeWhile {α : Type} (p : α → Bool) (l : List α) :
    l.take (l.takeWhile p).length = l.takeWhile p := by
  induction l with
  | nil => rfl
  | cons a t ih =>
      by_cases h : p a
      · simp [List.takeWhile_cons, h, ih]
      · simp [List.takeWhile_cons, h]

lemma take_leadingIndentLen_eq_takeWhile (s : String) :
    s.data.take (leadingIndentLen s) = s.data.takeWhile isSpaceChar := by
  have hsplit := List.takeWhile_append_dropWhile isSpaceChar s.data
  have hlen : (s.data.takeWhile isSpaceChar).length +
      (s.data.dropWhile isSpaceChar).length = s.data.length := by
    conv_rhs => rw [← hsplit]
    rw [List.length_append]
  have hind : leadingIndentLen s = (s.data.takeWhile isSpaceChar).length := by
    simp only [leadingIndentLen]
    omega
  rw [hind]
  exact take_length_takeWhile isSpaceChar s.data

/-- The spliced document produced by a successful wrap at line `i`. -/
def wrappedAt (lines : List String) (i : Nat) : List String :=
  lines.take i ++
    [guardOpenLine, lines.getD i "",
      String.mk ((lines.getD i "").data.takeWhile isSpaceChar) ++ "#endif"] ++
    lines.drop (i + 1)

/-- Exhaustive case analysis of `apply_smart_pattern`. -/
lemma apply_smart_pattern_cases (lines : List String) (cfg : PatternConfig) :
    (apply_smart_pattern lines cfg = (lines, "anchor_not_found") ∧
        find_anchor_line lines cfg.anchor = -1) ∨
    (∃ i : Nat, find_anchor_line lines cfg.anchor = (i : Int) ∧
      ((apply_smart_pattern lines cfg = (lines, "context_mismatch") ∧
          validate_context lines i cfg.context cfg.context_distance = false) ∨
       (apply_smart_pattern lines cfg = (lines, "already_applied") ∧
          validate_context lines i cfg.context cfg.context_distance = true ∧
          is_already_wrapped lines (i : Int) = true) ∨
       (apply_smart_pattern lines cfg = (wrappedAt lines i, "applied") ∧
          validate_context lines i cfg.context cfg.context_distance = true ∧
          is_already_wrapped lines (i : Int) = false))) := by
  by_cases h1 : find_anchor_line lines cfg.anchor = -1
  · exact Or.inl ⟨by simp [apply_smart_pattern, h1], h1⟩
  · obtain ⟨i, hfind⟩ := find_anchor_line_ne_neg_one lines cfg.anchor h1
    refine Or.inr ⟨i, hfind, ?_⟩
    cases hval : validate_context lines i cfg.context cfg.context_distance with
    | false =>
        left
        refine ⟨?_, rfl⟩
        simp [apply_smart_pattern, hfind, Int.toNat_natCast, h1, hval]
    | true =>
        cases hwrap : is_already_wrapped lines (i : Int) with
        | true =>
            right; left
            refine ⟨?_, rfl, rfl⟩
            have hne : ¬((i : Int) = -1) := by omega
            simp [apply_smart_pattern, hfind, Int.toNat_natCast, hne, hval, hwrap]
        | false =>
            right; right
            refine ⟨?_, rfl, rfl⟩
            have hne : ¬((i : Int) = -1) := by omega
            simp [apply_smart_pattern, hfind, Int.toNat_natCast, hne, hval, hwrap,
              wrappedAt, take_leadingIndentLen_eq_takeWhile]

lemma length_wrappedAt (lines : List String) (i : Nat) (h : i < lines.length) :
    (wrappedAt lines i).length = lines.length + 2 := by
  simp only [wrappedAt, List.length_append, List.length_take, List.length_drop,
    List.length_cons, List.length_nil]
  omega

/-- **C7**: a successful wrap replaces the single anchor line `i` by the
three-line block guard-open / original line / indentation + `#endif`
(the guard-close carrying the anchor line's leading indentation), leaving
every other line untouched and growing the document by exactly two lines. -/
theorem apply_smart_pattern_applied_splice (lines : List String) (cfg : PatternConfig)
    (h : (apply_smart_pattern lines cfg).2 = "applied") :
    ∃ i : Nat, find_anchor_line lines cfg.anchor = (i : Int) ∧ i < lines.length ∧
      (apply_smart_pattern lines cfg).1 =
        lines.take i ++
          [guardOpenLine, lines.getD i "",
            String.mk ((lines.getD i "").data.takeWhile isSpaceChar) ++ "#endif"] ++
          lines.drop (i + 1) ∧
      (apply_smart_pattern lines cfg).1.length = lines.length + 2 := by
  rcases apply_smart_pattern_cases lines cfg with ⟨heq, _⟩ |
    ⟨i, hfind, ⟨heq, _⟩ | ⟨heq, _⟩ | ⟨heq, _⟩⟩
  · rw [heq] at h; simp at h
  · rw [heq] at h; simp at h
  · rw [heq] at h; simp at h
  · have hlen := (find_anchor_line_of_int lines cfg.anchor i hfind).1
    refine ⟨i, hfind, hlen, ?_, ?_⟩
    · rw [heq]
      rfl
    · rw [heq]
      exact length_wrappedAt lines i hlen

theorem apply_smart_pattern_applied_splice_witness :
    ∃ i : Nat,
      find_anchor_line ["    [Guard]", "    class Foo \x7b"] "[Guard]" = (i : Int) ∧
      i < 2 ∧
      (apply_smart_pattern ["    [Guard]", "    class Foo \x7b"]
          ⟨"[Guard]", "class Foo", 5⟩).1 =
        (["    [Guard]", "    class Foo \x7b"] : List String).take i ++
          [guardOpenLine, (["    [Guard]", "    class Foo \x7b"] : List String).getD i "",
            String.mk (((["    [Guard]", "    class Foo \x7b"] : List String).getD i
              "").data.takeWhile isSpaceChar) ++ "#endif"] ++
          (["    [Guard]", "    class Foo \x7b"] : List String).drop (i + 1) ∧
      (apply_smart_pattern ["    [Guard]", "    class Foo \x7b"]
          ⟨"[Guard]", "class Foo", 5⟩).1.length = 2 + 2 :=
  apply_smart_pattern_applied_splice ["    [Guard]", "    class Foo \x7b"]
    ⟨"[Guard]", "class Foo", 5⟩ (by decide)

example :
    revert_smart_pattern
      ["#if EDOG_DEVMODE  // EDOG DevMode - disabled", "    [Guard]", "    #endif",
       "    class Foo \x7b"] ⟨"[Guard]", "class Foo", 5⟩ =
    (["    [Guard]", "    class Foo \x7b"], true) := by decide

example :
    apply_smart_pattern ["    [Guard]", "    class Foo \x7b"]
      ⟨"[Guard]", "class Bar", 5⟩ =
    (["    [Guard]", "    class Foo \x7b"], "context_mismatch") := by decide

lemma is_already_wrapped_true_elim (lines : List String) (a : Int)
    (h : is_already_wrapped lines a = true) :
    ¬(a ≤ 0) ∧
      "#if EDOG_DEVMODE".data.isPrefixOf (pyStrip (lines.getD (a.toNat - 1) "")).data = true := by
  by_cases h0 : a ≤ 0
  · rw [is_already_wrapped, if_pos h0] at h
    exact absurd h (by decide)
  · rw [is_already_wrapped, if_neg h0] at h
    exact ⟨h0, h⟩

/-- **C10**: `revert_smart_pattern` is all-or-nothing.  Either it deletes
exactly one guard-open line (the line before the anchor, whose stripped
content starts with `#if EDOG_DEVMODE`) and one guard-close line (a line
within the two lines after the anchor whose stripped content starts with
`#endif`) and returns `true`, or it returns the input document unchanged
with `false`; in particular the anchor being absent, the previous line not
being a guard-open, or no `#endif` line within the two following lines each
leave the document untouched. -/
theorem revert_smart_pattern_all_or_nothing (lines : List String) (cfg : PatternConfig) :
    ((∃ i e : Nat, find_anchor_line lines cfg.anchor = (i : Int) ∧
        1 ≤ i ∧ e < lines.length ∧ i + 1 ≤ e ∧ e ≤ i + 2 ∧
        "#if EDOG_DEVMODE".data.isPrefixOf (pyStrip (lines.getD (i - 1) "")).data = true ∧
        "#endif".data.isPrefixOf (pyStrip (lines.getD e "")).data = true ∧
        revert_smart_pattern lines cfg = ((lines.eraseIdx e).eraseIdx (i - 1), true)) ∨
      revert_smart_pattern lines cfg = (lines, false)) ∧
    (find_anchor_line lines cfg.anchor = -1 →
        revert_smart_pattern lines cfg = (lines, false)) ∧
    (∀ i : Nat, find_anchor_line lines cfg.anchor = (i : Int) →
        is_already_wrapped lines (i : Int) = false →
        revert_smart_pattern lines cfg = (lines, false)) ∧
    (∀ i : Nat, find_anchor_line lines cfg.anchor = (i : Int) →
        (∀ j, i + 1 ≤ j → j < lines.length → j < i + 3 →
            ¬ "#endif".data.isPrefixOf (pyStrip (lines.getD j "")).data = true) →
        revert_smart_pattern lines cfg = (lines, false)) := by
  refine ⟨?_, ?_, ?_, ?_⟩
  · by_cases h1 : find_anchor_line lines cfg.anchor = -1
    · exact Or.inr (by simp [revert_smart_pattern, h1])
    · obtain ⟨i, hfind⟩ := find_anchor_line_ne_neg_one lines cfg.anchor h1
      have hne : ¬((i : Int) = -1) := by omega
      cases hw : is_already_wrapped lines (i : Int) with
      | false =>
          exact Or.inr (by simp [revert_smart_pattern, hfind, hne, hw])
      | true =>
          obtain ⟨hi0, hpre⟩ := is_already_wrapped_true_elim lines (i : Int) hw
          have hi1 : 1 ≤ i := by omega
          cases hf : (List.range' (i + 1) (min lines.length (i + 3) - (i + 1))).find?
              (fun j => "#endif".data.isPrefixOf (pyStrip (lines.getD j "")).data) with
          | none =>
              refine Or.inr ?_
              simp only [revert_smart_pattern, hfind, if_neg hne, hw, Int.toNat_natCast,
                Bool.not_true]
              rw [if_neg (by simp)]
              rw [hf]
          | some e =>
              have he1 := List.mem_of_find?_eq_some hf
              rw [List.mem_range'_1] at he1
              have he2 := List.find?_some hf
              refine Or.inl ⟨i, e, hfind, hi1, by omega, by omega, by omega, ?_, ?_, ?_⟩
              · simpa [Int.toNat_natCast] using hpre
              · simpa using he2
              · simp only [revert_smart_pattern, hfind, if_neg hne, hw, Int.toNat_natCast,
                  Bool.not_true]
                rw [if_neg (by simp)]
                rw [hf]
  · intro h
    simp [revert_smart_pattern, h]
  · intro i hfind hw
    have hne : ¬((i : Int) = -1) := by omega
    simp [revert_smart_pattern, hfind, hne, hw]
  · intro i hfind hnone
    have hne : ¬((i : Int) = -1) := by omega
    cases hw : is_already_wrapped lines (i : Int) with
    | false => simp [revert_smart_pattern, hfind, hne, hw]
    | true =>
        have hf : (List.range' (i + 1) (min lines.length (i + 3) - (i + 1))).find?
            (fun j => "#endif".data.isPrefixOf (pyStrip (lines.getD j "")).data) = none := by
          rw [List.find?_eq_none]
          intro x hx
          rw [List.mem_range'_1] at hx
          have hx2 : x < min lines.length (i + 3) := by omega
          simpa using hnone x hx.1 (by omega) (by omega)
        simp only [revert_smart_pattern, hfind, if_neg hne, hw, Int.toNat_natCast,
          Bool.not_true]
        rw [if_neg (by simp)]
        rw [hf]

theorem revert_smart_pattern_all_or_nothing_witness :
    revert_smart_pattern ["    [Guard]", "    class Foo \x7b"] ⟨"[Guard]", "class Foo", 5⟩ =
      (["    [Guard]", "    class Foo \x7b"], false) :=
  (revert_smart_pattern_all_or_nothing ["    [Guard]", "    class Foo \x7b"]
      ⟨"[Guard]", "class Foo", 5⟩).2.2.1 0 (by decide) (by decide)

/-! ### Round-trip machinery for the wrap transform -/

lemma findAnchorAux_append (na : String) (pre rest : List String) (i : Nat)
    (hpre : ∀ l ∈ pre, isSubstr na.data (normalize_whitespace l).data = false) :
    findAnchorAux na (pre ++ rest) i = findAnchorAux na rest (i + pre.length) := by
  induction pre generalizing i with
  | nil => simp
  | cons l ls ih =>
      have hl := hpre l (by simp)
      have hrec := ih (i + 1) (fun x hx => hpre x (by simp [hx]))
      simp only [List.cons_append, findAnchorAux, hl]
      rw [if_neg (by simp)]
      show findAnchorAux na (ls ++ rest) (i + 1) = _
      rw [hrec]
      congr 1
      simp only [List.length_cons]
      omega

lemma find_anchor_line_wrappedAt (lines : List String) (anchor : String) (i : Nat)
    (hguard : anchorMatches anchor guardOpenLine = false)
    (hfind : find_anchor_line lines anchor = (i : Int)) :
    find_anchor_line (wrappedAt lines i) anchor = ((i + 1 : Nat) : Int) := by
  obtain ⟨hlen, hmatch, hfail⟩ := find_anchor_line_of_int lines anchor i hfind
  have htl : (lines.take i).length = i := by
    rw [List.length_take]
    omega
  have hpre : ∀ l ∈ lines.take i,
      isSubstr (normalize_whitespace anchor).data (normalize_whitespace l).data = false :=
    fun l hl => hfail l hl
  unfold find_anchor_line wrappedAt
  rw [List.append_assoc, findAnchorAux_append _ _ _ _ hpre, htl]
  have hg : isSubstr (normalize_whitespace anchor).data
      (normalize_whitespace guardOpenLine).data = false := hguard
  simp only [List.cons_append, findAnchorAux, hg]
  rw [if_neg (by simp)]
  have hm : isSubstr (normalize_whitespace anchor).data
      (normalize_whitespace (lines.getD i "")).data = true := hmatch
  simp only [findAnchorAux, hm, if_pos]
  omega

lemma wrappedAt_getD (lines : List String) (i : Nat) (hlen : i < lines.length) :
    (wrappedAt lines i).getD i "" = guardOpenLine ∧
    (wrappedAt lines i).getD (i + 1) "" = lines.getD i "" ∧
    (wrappedAt lines i).getD (i + 2) "" =
      String.mk ((lines.getD i "").data.takeWhile isSpaceChar) ++ "#endif" := by
  have htl : (lines.take i).length = i := by
    rw [List.length_take]
    omega
  unfold wrappedAt
  rw [List.append_assoc]
  refine ⟨?_, ?_, ?_⟩
  · rw [List.getD_append_right _ _ _ _ (by omega), htl]
    simp
  · rw [List.getD_append_right _ _ _ _ (by omega), htl]
    simp
  · rw [List.getD_append_right _ _ _ _ (by omega), htl]
    simp

lemma dropWhile_append_of_all {α : Type} (p : α → Bool) (w t : List α)
    (hw : ∀ c ∈ w, p c = true) :
    (w ++ t).dropWhile p = t.dropWhile p := by
  induction w with
  | nil => simp
  | cons c cs ih =>
      have hc := hw c (by simp)
      simp only [List.cons_append, List.dropWhile_cons, hc, if_pos]
      exact ih (fun x hx => hw x (by simp [hx]))

lemma pyStrip_indent_endif (w : List Char) (hw : ∀ c ∈ w, isSpaceChar c = true) :
    pyStrip (String.mk w ++ "#endif") = "#endif" := by
  have hdata : (String.mk w ++ "#endif").data = w ++ "#endif".data := by
    rw [String.data_append]
  simp only [pyStrip, hdata]
  rw [dropWhile_append_of_all isSpaceChar w _ hw]
  decide

lemma is_already_wrapped_wrappedAt (lines : List String) (i : Nat)
    (hlen : i < lines.length) :
    is_already_wrapped (wrappedAt lines i) ((i + 1 : Nat) : Int) = true := by
  have hg := (wrappedAt_getD lines i hlen).1
  have h0 : ¬(((i + 1 : Nat) : Int) ≤ 0) := by omega
  rw [is_already_wrapped, if_neg h0, Int.toNat_natCast]
  simp only [Nat.add_sub_cancel, hg]
  decide

lemma revert_smart_pattern_wrappedAt (lines : List String) (cfg : PatternConfig) (i : Nat)
    (hguard : anchorMatches cfg.anchor guardOpenLine = false)
    (hfind : find_anchor_line lines cfg.anchor = (i : Int)) :
    revert_smart_pattern (wrappedAt lines i) cfg = (lines, true) := by
  obtain ⟨hlen, hmatch, hfail⟩ := find_anchor_line_of_int lines cfg.anchor i hfind
  have hfind2 := find_anchor_line_wrappedAt lines cfg.anchor i hguard hfind
  have hL : (wrappedAt lines i).length = lines.length + 2 := length_wrappedAt lines i hlen
  obtain ⟨hg, ho, hgc⟩ := wrappedAt_getD lines i hlen
  have hw := is_already_wrapped_wrappedAt lines i hlen
  have hne : ¬(((i + 1 : Nat) : Int) = -1) := by omega
  -- the #endif search window starts at i + 2 and the guard-close sits right there
  have hstop : min (wrappedAt lines i).length (i + 1 + 3) - (i + 1 + 1) =
      (min (wrappedAt lines i).length (i + 1 + 3) - (i + 1 + 1) - 1) + 1 := by
    rw [hL]
    omega
  have hpred : ("#endif".data.isPrefixOf
      (pyStrip ((wrappedAt lines i).getD (i + 2) "")).data) = true := by
    rw [hgc, pyStrip_indent_endif _ (fun c hc => List.mem_takeWhile_imp hc)]
    decide
  have hfindq : (List.range' (i + 1 + 1) (min (wrappedAt lines i).length (i + 1 + 3) - (i + 1 + 1))).find?
      (fun j => "#endif".data.isPrefixOf (pyStrip ((wrappedAt lines i).getD j "")).data) =
      some (i + 2) := by
    rw [hstop, List.range'_succ]
    rw [List.find?_cons]
    simp only [hpred]
  have htl : (lines.take i).length = i := by
    rw [List.length_take]
    omega
  have herase : (((wrappedAt lines i).eraseIdx (i + 2)).eraseIdx (i + 1 - 1)) = lines := by
    have h1 : wrappedAt lines i =
        (lines.take i ++ [guardOpenLine, lines.getD i ""]) ++
          ((String.mk ((lines.getD i "").data.takeWhile isSpaceChar) ++ "#endif") ::
            lines.drop (i + 1)) := by
      unfold wrappedAt
      simp [List.append_assoc]
    have hlen1 : (lines.take i ++ [guardOpenLine, lines.getD i ""]).length = i + 2 := by
      simp [htl]
    rw [h1, List.eraseIdx_append_of_length_le (by omega)]
    simp only [hlen1, Nat.sub_self, List.eraseIdx_cons_zero]
    have h2 : lines.take i ++ [guardOpenLine, lines.getD i ""] ++ lines.drop (i + 1) =
        lines.take i ++ (guardOpenLine :: ((lines.getD i "") :: lines.drop (i + 1))) := by
      simp
    rw [h2, Nat.add_sub_cancel, List.eraseIdx_append_of_length_le (by omega)]
    rw [htl, Nat.sub_self, List.eraseIdx_cons_zero]
    have h3 : lines.getD i "" :: lines.drop (i + 1) = lines.drop i := by
      rw [List.getD_eq_getElem lines "" hlen]
      exact (List.drop_eq_getElem_cons hlen).symm
    rw [h3, List.take_append_drop]
  rw [revert_smart_pattern]
  rw [hfind2]
  rw [if_neg hne]
  rw [hw]
  simp only [Bool.not_true]
  rw [if_neg (by simp), Int.toNat_natCast, hfindq]
  show (((wrappedAt lines i).eraseIdx (i + 2)).eraseIdx (i + 1 - 1), true) = (lines, true)
  rw [herase]

/-- **C1** (counterexample): the unconditional round-trip claim is false.
With document `["x DevMode y"]` and rule `(anchor "DevMode", context "x",
distance 0)`, `apply_smart_pattern` reports `applied`, but the inserted
guard-open line itself contains the anchor text, so `revert_smart_pattern`
finds the anchor on the guard line, sees no wrap above it, and returns the
wrapped document with `False` instead of the original with `True`. -/
theorem wrap_apply_revert_roundtrip_cex :
    (apply_smart_pattern ["x DevMode y"] ⟨"DevMode", "x", 0⟩).2 = "applied" ∧
    revert_smart_pattern (apply_smart_pattern ["x DevMode y"] ⟨"DevMode", "x", 0⟩).1
        ⟨"DevMode", "x", 0⟩ ≠ (["x DevMode y"], true) := by decide

/-- **C1** (amended): if `apply_smart_pattern` reports `applied` and the
rule's collapsed anchor does not occur in the guard-open line the transform
inserts, then `revert_smart_pattern` on the result returns the original
document byte-for-byte together with `True`. -/
theorem wrap_apply_revert_roundtrip (lines : List String) (cfg : PatternConfig)
    (hguard : anchorMatches cfg.anchor guardOpenLine = false)
    (happ : (apply_smart_pattern lines cfg).2 = "applied") :
    revert_smart_pattern (apply_smart_pattern lines cfg).1 cfg = (lines, true) := by
  rcases apply_smart_pattern_cases lines cfg with ⟨heq, _⟩ |
    ⟨i, hfind, ⟨heq, _⟩ | ⟨heq, _⟩ | ⟨heq, _⟩⟩
  · rw [heq] at happ; simp at happ
  · rw [heq] at happ; simp at happ
  · rw [heq] at happ; simp at happ
  · rw [heq]
    exact revert_smart_pattern_wrappedAt lines cfg i hguard hfind

theorem wrap_apply_revert_roundtrip_witness :
    revert_smart_pattern
        (apply_smart_pattern ["    [Guard]", "    class Foo \x7b"]
          ⟨"[Guard]", "class Foo", 5⟩).1 ⟨"[Guard]", "class Foo", 5⟩ =
      (["    [Guard]", "    class Foo \x7b"], true) :=
  wrap_apply_revert_roundtrip ["    [Guard]", "    class Foo \x7b"]
    ⟨"[Guard]", "class Foo", 5⟩ (by decide) (by decide)

/-- **C3** (counterexample): idempotence fails as stated.  With document
`["x DevMode y"]` and rule `(anchor "DevMode", context "x", distance 1)`
the first call reports `applied`; the second call finds the anchor on the
freshly inserted guard-open line, validates the context against the
original line one below, sees no wrap above line 0, and wraps again:
the document changes and the status is `applied`, not `already_applied`. -/
theorem apply_smart_pattern_idempotent_cex :
    (apply_smart_pattern ["x DevMode y"] ⟨"DevMode", "x", 1⟩).2 = "applied" ∧
    (apply_smart_pattern
        (apply_smart_pattern ["x DevMode y"] ⟨"DevMode", "x", 1⟩).1
        ⟨"DevMode", "x", 1⟩).1 ≠
      (apply_smart_pattern ["x DevMode y"] ⟨"DevMode", "x", 1⟩).1 ∧
    (apply_smart_pattern
        (apply_smart_pattern ["x DevMode y"] ⟨"DevMode", "x", 1⟩).1
        ⟨"DevMode", "x", 1⟩).2 = "applied" := by decide

/-- **C3** (amended): provided the collapsed anchor does not occur in the
inserted guard-open line, a second `apply_smart_pattern` returns the result
of the first application unchanged; when the first call returned `applied`,
the second returns `already_applied` exactly when the context still
validates at the anchor's shifted position (one line further down) in the
wrapped document — the wrap can push a context that sat exactly
`context_distance` lines away out of the window, in which case the second
call returns `context_mismatch`, still leaving the document unchanged. -/
theorem apply_smart_pattern_idempotent (lines : List String) (cfg : PatternConfig)
    (hguard : anchorMatches cfg.anchor guardOpenLine = false) :
    (apply_smart_pattern (apply_smart_pattern lines cfg).1 cfg).1 =
      (apply_smart_pattern lines cfg).1 ∧
    ((apply_smart_pattern lines cfg).2 = "applied" →
      ((apply_smart_pattern (apply_smart_pattern lines cfg).1 cfg).2 =
          "already_applied" ↔
        validate_context (apply_smart_pattern lines cfg).1
          ((find_anchor_line lines cfg.anchor).toNat + 1)
          cfg.context cfg.context_distance = true) ∧
      ((apply_smart_pattern (apply_smart_pattern lines cfg).1 cfg).2 =
          "already_applied" ∨
       (apply_smart_pattern (apply_smart_pattern lines cfg).1 cfg).2 =
          "context_mismatch")) := by
  rcases apply_smart_pattern_cases lines cfg with ⟨heq, _⟩ |
    ⟨i, hfind, ⟨heq, _⟩ | ⟨heq, _⟩ | ⟨heq, hval, hwrap⟩⟩
  · rw [heq]
    exact ⟨by rw [heq], fun h => by simp at h⟩
  · rw [heq]
    exact ⟨by rw [heq], fun h => by simp at h⟩
  · rw [heq]
    exact ⟨by rw [heq], fun h => by simp at h⟩
  · have hlen := (find_anchor_line_of_int lines cfg.anchor i hfind).1
    have hfind2 := find_anchor_line_wrappedAt lines cfg.anchor i hguard hfind
    have hw := is_already_wrapped_wrappedAt lines i hlen
    have hne : ¬(((i + 1 : Nat) : Int) = -1) := by omega
    rw [heq]
    simp only [hfind]
    cases hval2 : validate_context (wrappedAt lines i) (i + 1)
        cfg.context cfg.context_distance with
    | false =>
        have happ2 : apply_smart_pattern (wrappedAt lines i) cfg =
            (wrappedAt lines i, "context_mismatch") := by
          simp only [apply_smart_pattern]
          rw [hfind2, if_neg hne, Int.toNat_natCast, hval2]
          simp
        refine ⟨by rw [happ2], fun _ => ?_⟩
        rw [happ2]
        simp only [Int.toNat_natCast]
        rw [hval2]
        simp
    | true =>
        have happ2 : apply_smart_pattern (wrappedAt lines i) cfg =
            (wrappedAt lines i, "already_applied") := by
          simp only [apply_smart_pattern]
          rw [hfind2, if_neg hne, Int.toNat_natCast, hval2]
          simp only [Bool.not_true]
          rw [if_neg (by simp), hw, if_pos rfl]
        refine ⟨by rw [happ2], fun _ => ?_⟩
        rw [happ2]
        simp only [Int.toNat_natCast]
        rw [hval2]
        simp

theorem apply_smart_pattern_idempotent_witness :
    (apply_smart_pattern
        (apply_smart_pattern ["    [Guard]", "    class Foo \x7b"]
          ⟨"[Guard]", "class Foo", 5⟩).1 ⟨"[Guard]", "class Foo", 5⟩).1 =
      (apply_smart_pattern ["    [Guard]", "    class Foo \x7b"]
        ⟨"[Guard]", "class Foo", 5⟩).1 :=
  (apply_smart_pattern_idempotent ["    [Guard]", "    class Foo \x7b"]
    ⟨"[Guard]", "class Foo", 5⟩ (by decide)).1

/-! ### Patch capture (`generate_patch`) -/

/-- Line-break characters recognised by Python `str.splitlines`. -/
def isLineBreak (c : Char) : Bool :=
  c == '\n' || c == '\r' || c == '\x0b' || c == '\x0c' ||
  c == '\x1c' || c == '\x1d' || c == '\x1e' || c == '\x85' ||
  c == '\u2028' || c == '\u2029'

/-- Python `s.splitlines(keepends=True)` at the character level; `acc` holds
the current (reversed) partial line. -/
def splitlinesKeepends : List Char → List Char → List (List Char)
  | acc, [] => if acc.isEmpty then [] else [acc.reverse]
  | acc, '\r' :: '\n' :: rest =>
      (acc.reverse ++ ['\r', '\n']) :: splitlinesKeepends [] rest
  | acc, c :: rest =>
      if isLineBreak c then (acc.reverse ++ [c]) :: splitlinesKeepends [] rest
      else splitlinesKeepends (c :: acc) rest

/-- The trailing-newline fix-up in `generate_patch`: if the side is nonempty
and its last line does not end with `'\n'`, append `'\n'` to that line. -/
def fixLastLine (ls : List (List Char)) : List (List Char) :=
  match ls.getLast? with
  | none => ls
  | some last =>
      if last.getLast? = some '\n' then ls
      else ls.dropLast ++ [last ++ ['\n']]

/-- `generate_patch`'s per-file normalisation: split keeping line ends, then
ensure the last line carries a newline. -/
def normalizedLines (s : String) : List (List Char) :=
  fixLastLine (splitlinesKeepends [] s.data)

/-- Longest common prefix length of two line lists. -/
def commonPrefixLen : List (List Char) → List (List Char) → Nat
  | a :: as, b :: bs => if a = b then 1 + commonPrefixLen as bs else 0
  | _, _ => 0

/-- Embedding of the `difflib.unified_diff(a, b, fromfile, tofile, lineterm='\n')`
call in `generate_patch`, keeping the contract the engine relies on: it
yields nothing when the two line sequences are equal, and otherwise a
`---`/`+++` header pair followed by hunks deleting the changed lines of `a`
and inserting those of `b` (each line keeping its terminator).  The body
trims the common prefix/suffix and emits one zero-context hunk; difflib's
SequenceMatcher may instead split the same change into several context
hunks, which nothing verified here depends on. -/
def unified_diff (a b : List (List Char)) (fromfile tofile : String) :
    List (List Char) :=
  if a = b then []
  else
    let p := commonPrefixLen a b
    let q := commonPrefixLen (a.drop p).reverse (b.drop p).reverse
    let adel := (a.drop p).take (a.length - p - q)
    let bins := (b.drop p).take (b.length - p - q)
    ("--- " ++ fromfile ++ "\n").data ::
      ("+++ " ++ tofile ++ "\n").data ::
      ("@@ -" ++ toString (p + 1) ++ "," ++ toString adel.length ++ " +" ++
          toString (p + 1) ++ "," ++ toString bins.length ++ " @@\n").data ::
      (adel.map (fun l => '-' :: l) ++ bins.map (fun l => '+' :: l))

/-- Per-file body of the `generate_patch` loop: skip byte-identical
contents, normalise both sides, turn backslashes of the relative path into
forward slashes, and diff with `a/<path>`, `b/<path>` labels. -/
def filePatchLines (rel_path : String) (original modified : String) :
    List (List Char) :=
  if original = modified then []
  else
    let git_path := String.mk (rel_path.data.map (fun c => if c = '\\' then '/' else c))
    unified_diff (normalizedLines original) (normalizedLines modified)
      ("a/" ++ git_path) ("b/" ++ git_path)

/-- `generate_patch` from edog.py.  The content maps are association lists
in insertion order (Python dicts preserve it); the `.edog-changes.patch`
artifact slot is an `Option` of its content: `False` is returned and the
slot left untouched when no diff lines were produced, otherwise the joined
lines are written and `True` returned. -/
def generate_patch (original_contents modified_contents : List (String × String))
    (artifact : Option (List Char)) : Bool × Option (List Char) :=
  let patch_lines := original_contents.flatMap (fun rp =>
    match modified_contents.lookup rp.1 with
    | none => []
    | some modified => filePatchLines rp.1 rp.2 modified)
  if patch_lines.isEmpty then (false, artifact)
  else (true, some patch_lines.flatten)

lemma filePatchLines_eq_nil_iff (rel o mc : String) :
    filePatchLines rel o mc = [] ↔ normalizedLines o = normalizedLines mc := by
  by_cases h : o = mc
  · subst h
    simp [filePatchLines]
  · simp only [filePatchLines, if_neg h]
    by_cases h2 : normalizedLines o = normalizedLines mc
    · simp [unified_diff, h2]
    · simp [unified_diff, h2]

/-- **C5** (counterexample): `generate_patch` does not emit a section for
every file whose before-content differs from its after-content: `"a"` and
`"a\n"` differ byte-wise, but the trailing-newline normalisation makes
their line sequences equal, so no diff is produced, `False` is returned and
a pre-existing artifact survives untouched. -/
theorem generate_patch_cex :
    ("a" : String) ≠ "a\n" ∧
    generate_patch [("f", "a")] [("f", "a\n")] (some "old".data) =
      (false, some "old".data) := by decide

/-- **C5** (amended): `generate_patch` emits a per-file unified-diff section
for exactly those files whose before/after contents differ as line
sequences after the splitlines/trailing-newline normalisation (byte-equal
files are skipped outright, and a file differing only in its trailing final
newline produces no section); when no file differs in that sense it returns
`False` and leaves the artifact slot untouched, and otherwise it writes
exactly the concatenation of the changed files' sections. -/
theorem generate_patch_changed_sections_only
    (originals modified : List (String × String)) (artifact : Option (List Char)) :
    ((generate_patch originals modified artifact).1 = false ↔
        ∀ p ∈ originals, ∀ mc, modified.lookup p.1 = some mc →
          normalizedLines p.2 = normalizedLines mc) ∧
    ((generate_patch originals modified artifact).1 = false →
        (generate_patch originals modified artifact).2 = artifact) ∧
    ((generate_patch originals modified artifact).1 = true →
        (generate_patch originals modified artifact).2 =
          some (originals.flatMap (fun rp =>
            match modified.lookup rp.1 with
            | none => []
            | some mc => filePatchLines rp.1 rp.2 mc)).flatten) ∧
    (∀ rel o mc : String,
        filePatchLines rel o mc = [] ↔ normalizedLines o = normalizedLines mc) := by
  set L := originals.flatMap (fun rp =>
    match modified.lookup rp.1 with
    | none => ([] : List (List Char))
    | some mc => filePatchLines rp.1 rp.2 mc) with hL
  have hgen : generate_patch originals modified artifact =
      if L.isEmpty then (false, artifact) else (true, some L.flatten) := rfl
  have hnil : L = [] ↔ ∀ p ∈ originals, ∀ mc, modified.lookup p.1 = some mc →
      normalizedLines p.2 = normalizedLines mc := by
    rw [hL, List.flatMap_eq_nil_iff]
    constructor
    · intro h p hp mc hmc
      have := h p hp
      rw [hmc] at this
      exact (filePatchLines_eq_nil_iff _ _ _).mp this
    · intro h p hp
      cases hmc : modified.lookup p.1 with
      | none => rfl
      | some mc => exact (filePatchLines_eq_nil_iff _ _ _).mpr (h p hp mc hmc)
  refine ⟨?_, ?_, ?_, filePatchLines_eq_nil_iff⟩
  · rw [hgen]
    cases hE : L.isEmpty with
    | true =>
        rw [if_pos rfl]
        constructor
        · intro _
          exact hnil.mp (List.isEmpty_iff.mp hE)
        · intro _
          rfl
    | false =>
        rw [if_neg (by simp)]
        constructor
        · intro h
          exact absurd h (by simp)
        · intro h
          have h0 : L = [] := hnil.mpr h
          rw [h0] at hE
          simp at hE
  · rw [hgen]
    cases hE : L.isEmpty with
    | true =>
        rw [if_pos rfl]
        intro _
        rfl
    | false =>
        rw [if_neg (by simp)]
        intro h
        exact absurd h (by simp)
  · rw [hgen]
    cases hE : L.isEmpty with
    | true =>
        rw [if_pos rfl]
        intro h
        exact absurd h (by simp)
    | false =>
        rw [if_neg (by simp)]
        intro _
        rfl

theorem generate_patch_changed_sections_only_witness :
    (generate_patch [("A.cs", "x\n"), ("B.cs", "y\n")]
        [("A.cs", "x\n"), ("B.cs", "z\n")] none).2 =
      some ("--- a/B.cs\n+++ b/B.cs\n@@ -1,1 +1,1 @@\n-y\n+z\n").data :=
  ((generate_patch_changed_sections_only [("A.cs", "x\n"), ("B.cs", "y\n")]
      [("A.cs", "x\n"), ("B.cs", "z\n")] none).2.2.1 (by decide)).trans (by decide)

/-! ### Patch reverse-apply (`apply_patch_reverse`, `revert_all_changes`) -/

/-- Outcome of one modelled `subprocess.run(['git', 'apply', ...])` call:
return code plus captured stderr/stdout text. -/
structure GitResult where
  returncode : Int
  stderr : String
  stdout : String
deriving Repr

/-- Environment for `apply_patch_reverse`: the results the three possible
git invocations would produce (reverse-check, reverse-apply, three-way
reverse-apply).  Exceptional exits (timeout, git missing) are additional
error branches of the source not exercised by any claim here. -/
structure GitEnv where
  check : GitResult
  applyReverse : GitResult
  apply3way : GitResult
deriving Repr

/-- Python `needle in hay` on strings. -/
def pyContainsStr (hay needle : String) : Bool :=
  isSubstr needle.data hay.data

/-- `apply_patch_reverse` from edog.py.  The `.edog-changes.patch` artifact
is an `Option` of its content and the returned triple is
(success, message, artifact state after the call); `patch_path` is the
rendered path interpolated into the conflict message.  All git behaviour is
supplied by `git : GitEnv`. -/
def apply_patch_reverse (artifact : Option (List Char)) (git : GitEnv)
    (patch_path : String) : Bool × String × Option (List Char) :=
  match artifact with
  | none =>
      (false,
       "No patch file found - EDOG changes may not have been applied or were already reverted",
       none)
  | some patch =>
      if git.check.returncode = 0 then
        if git.applyReverse.returncode = 0 then
          (true, "Successfully reverted all EDOG changes", none)
        else
          (false, "Failed to apply patch: " ++ pyStrip git.applyReverse.stderr, some patch)
      else
        if git.apply3way.returncode = 0 then
          (true, "Successfully reverted EDOG changes (merged with your edits)", none)
        else if pyContainsStr (pyLower git.apply3way.stderr) "conflict" ||
            pyContainsStr (pyLower git.apply3way.stdout) "conflict" then
          (false,
           "Merge conflicts detected. Your edits conflict with EDOG changes.\n" ++
             "      Options:\n" ++
             "        1. Resolve conflicts manually in the affected files\n" ++
             "        2. Run 'git checkout -- <file>' to discard ALL changes (including yours)\n" ++
             "        3. Delete patch file manually: " ++ patch_path,
           some patch)
        else if pyContainsStr (pyLower git.check.stderr) "patch does not apply" then
          (true, "EDOG changes already reverted (or files were manually restored)", none)
        else
          (false,
           "Failed to revert: " ++
             (if pyStrip git.apply3way.stderr ≠ "" then pyStrip git.apply3way.stderr
              else pyStrip git.check.stderr),
           some patch)

/-- `revert_all_changes` from edog.py: runs `apply_patch_reverse` and
returns its success flag (the messages are only printed). -/
def revert_all_changes (artifact : Option (List Char)) (git : GitEnv)
    (patch_path : String) : Bool :=
  (apply_patch_reverse artifact git patch_path).1

/-- **C6** (counterexample): with the patch artifact missing, the revert
operation does not report a non-failing "nothing to revert" outcome: it
returns the same failure value `False` as every error branch
(`revert_all_changes` prints it as an error), distinguishable only by the
message text. -/
theorem apply_patch_reverse_missing_cex :
    revert_all_changes none ⟨⟨0, "", ""⟩, ⟨0, "", ""⟩, ⟨0, "", ""⟩⟩ ".edog-changes.patch" =
      false := by decide

/-- **C6** (amended): when the patch artifact is missing,
`apply_patch_reverse` immediately returns — without consulting git or
touching any state — the flag `False` together with the fixed message
"No patch file found - EDOG changes may not have been applied or were
already reverted"; the "nothing to revert" condition is conveyed only by
that message, while the boolean is the failure value, so
`revert_all_changes` reports the outcome as unsuccessful. -/
theorem apply_patch_reverse_missing (git : GitEnv) (patch_path : String) :
    apply_patch_reverse none git patch_path =
      (false,
       "No patch file found - EDOG changes may not have been applied or were already reverted",
       none) ∧
    revert_all_changes none git patch_path = false := by
  exact ⟨rfl, rfl⟩

/-! ### Character-level toolbox for the structural transforms -/

/-- Python `hay.find(pat)` as an `Option`: smallest index where `pat`
occurs (`none` standing for the source's `-1`). -/
def findSub : List Char → List Char → Option Nat
  | hay, pat =>
    if pat.isPrefixOf hay then some 0
    else
      match hay with
      | [] => none
      | _ :: t => (findSub t pat).map (· + 1)

/-- Python `pat in hay` on strings. -/
def pyContains (hay pat : List Char) : Bool :=
  (findSub hay pat).isSome

/-- Python `hay.rfind(c, 0, stop)` for a single character, as an `Option`:
largest index `i < stop` with `hay[i] = c`. -/
def rfindCharBefore (hay : List Char) (c : Char) (stop : Nat) : Option Nat :=
  let rec go : List Char → Nat → Option Nat → Option Nat
    | [], _, best => best
    | x :: t, i, best => go t (i + 1) (if x = c then some i else best)
  go (hay.take stop) 0 none

/-- Python `s.strip()` on a character list. -/
def pyStripList (cs : List Char) : List Char :=
  ((cs.dropWhile isSpaceChar).reverse.dropWhile isSpaceChar).reverse

/-- The brace-depth loop of the structural transforms:
`while pos < len(content) and brace_count > 0: ...` walking the characters
after the opening brace; returns the final `(pos, brace_count)`. -/
def braceScan : List Char → Nat → Nat → Nat × Nat
  | [], count, pos => (pos, count)
  | c :: rest, count, pos =>
      if count = 0 then (pos, count)
      else braceScan rest
        (if c = '\x7b' then count + 1 else if c = '\x7d' then count - 1 else count)
        (pos + 1)

/-- The literal-substitution core of `re.sub` with a head-matcher: scan
left to right, replace each non-overlapping match (every matcher used here
consumes at least one character, so `fuel = length` suffices and the
recursion is structural).  The replacement is inserted literally: this is
the substitution step *after* `re.sub` has processed the replacement
template, so it is used directly only where the processed template is a
plain string; the full template processing is `reSub` below. -/
def subAllFuel (matchLen : List Char → Option Nat) (repl : List Char) :
    Nat → List Char → List Char
  | 0, cs => cs
  | _ + 1, [] => []
  | fuel + 1, c :: rest =>
      match matchLen (c :: rest) with
      | some n => repl ++ subAllFuel matchLen repl fuel ((c :: rest).drop n)
      | none => c :: subAllFuel matchLen repl fuel rest

/-- Literal substitution of an already-processed, backslash-free
replacement string, for the specific patterns modelled here. -/
def subAll (matchLen : List Char → Option Nat) (repl : List Char)
    (cs : List Char) : List Char :=
  subAllFuel matchLen repl cs.length cs

/-- `re.search`: first position (with its end) where the head-matcher
succeeds. -/
def searchFirst (matchLen : List Char → Option Nat) :
    List Char → Nat → Option (Nat × Nat)
  | [], i =>
      match matchLen [] with
      | some n => some (i, i + n)
      | none => none
  | c :: rest, i =>
      match matchLen (c :: rest) with
      | some n => some (i, i + n)
      | none => searchFirst matchLen rest (i + 1)

/-! ### `re.sub` replacement-template processing

Python's `re.sub` does not insert the replacement string literally: it
first parses it as a template (CPython `sre_parse.parse_template`),
converting backslash escapes (`\n`, `\t`, ..., `\\`, octal `\0oo`/`\ooo`)
to characters, resolving group references, and raising `re.error` on a bad
escape (`\` + unknown ASCII letter, a trailing `\`, or a reference to a
group the pattern does not have).  The patterns substituted in this
program have no capture groups, so the only resolvable group reference is
`\g<0>` (the whole match) and every numeric reference `\1`..`\99` is an
error; the processed template is therefore a sequence of literal
characters and whole-match insertions.  (Group names are modelled as
parsed by plain decimal-digit reading; Python's `int` would additionally
accept exotic spellings such as `\g<+0>`, which this model maps to the
error path.) -/

/-- One element of a processed replacement template: a literal character,
or an insertion of the whole match (`\g<0>`). -/
inductive TemplItem where
  | lit (c : Char)
  | group0
deriving DecidableEq

/-- Instantiate a processed template at a concrete matched text. -/
def instTemplate (items : List TemplItem) (matched : List Char) : List Char :=
  items.flatMap (fun i =>
    match i with
    | TemplItem.lit c => [c]
    | TemplItem.group0 => matched)

/-- The `ESCAPES` table of `sre_parse`: `\a \b \f \n \r \t \v \\`. -/
def templEscape (c : Char) : Option Char :=
  if c = 'a' then some (Char.ofNat 7)
  else if c = 'b' then some (Char.ofNat 8)
  else if c = 'f' then some (Char.ofNat 12)
  else if c = 'n' then some (Char.ofNat 10)
  else if c = 'r' then some (Char.ofNat 13)
  else if c = 't' then some (Char.ofNat 9)
  else if c = 'v' then some (Char.ofNat 11)
  else if c = '\\' then some '\\'
  else none

def isOctDigitCh (c : Char) : Bool :=
  decide ('0' ≤ c) && decide (c ≤ '7')

def isDecDigitCh (c : Char) : Bool :=
  decide ('0' ≤ c) && decide (c ≤ '9')

def isAsciiLetterCh (c : Char) : Bool :=
  (decide ('a' ≤ c) && decide (c ≤ 'z')) || (decide ('A' ≤ c) && decide (c ≤ 'Z'))

def octValCh (c : Char) : Nat := c.toNat - 48

/-- Parse what follows a backslash in a replacement template (for a
pattern with no capture groups): the produced items and the remaining
characters, or `none` where `re.sub` raises `re.error`. -/
def templStep (rest : List Char) : Option (List TemplItem × List Char) :=
  match rest with
  | [] => none
  | e :: r1 =>
      if e = 'g' then
        match r1 with
        | '<' :: r2 =>
            let name := r2.takeWhile (fun ch => ch ≠ '>')
            if name.length < r2.length then
              if (!name.isEmpty && name.all isDecDigitCh) = true then
                if name.foldl (fun a ch => a * 10 + octValCh ch) 0 = 0 then
                  some ([TemplItem.group0], r2.drop (name.length + 1))
                else none
              else none
            else none
        | _ => none
      else if e = '0' then
        match r1 with
        | d1 :: r2 =>
            if isOctDigitCh d1 then
              match r2 with
              | d2 :: r3 =>
                  if isOctDigitCh d2 then
                    some ([TemplItem.lit
                      (Char.ofNat (octValCh d1 * 8 + octValCh d2))], r3)
                  else some ([TemplItem.lit (Char.ofNat (octValCh d1))], r2)
              | [] => some ([TemplItem.lit (Char.ofNat (octValCh d1))], r2)
            else some ([TemplItem.lit (Char.ofNat 0)], r1)
        | [] => some ([TemplItem.lit (Char.ofNat 0)], r1)
      else if isDecDigitCh e then
        match r1 with
        | d2 :: r2 =>
            if isDecDigitCh d2 then
              if isOctDigitCh e && isOctDigitCh d2 then
                match r2 with
                | d3 :: r3 =>
                    if isOctDigitCh d3 then
                      if octValCh e * 64 + octValCh d2 * 8 + octValCh d3 ≤ 255 then
                        some ([TemplItem.lit (Char.ofNat
                          (octValCh e * 64 + octValCh d2 * 8 + octValCh d3))], r3)
                      else none
                    else none
                | [] => none
              else none
            else none
        | [] => none
      else
        match templEscape e with
        | some ch => some ([TemplItem.lit ch], r1)
        | none =>
            if isAsciiLetterCh e then none
            else some ([TemplItem.lit '\\', TemplItem.lit e], r1)

/-- `sre_parse.parse_template` for a group-free pattern (each step
consumes at least one character, so `fuel = length` suffices). -/
def parseTemplateFuel : Nat → List Char → Option (List TemplItem)
  | 0, _ => none
  | _ + 1, [] => some []
  | fuel + 1, c :: rest =>
      if c = '\\' then
        match templStep rest with
        | some (items, r) =>
            (parseTemplateFuel fuel r).map (fun t => items ++ t)
        | none => none
      else
        (parseTemplateFuel fuel rest).map (fun t => TemplItem.lit c :: t)

def parseTemplate (cs : List Char) : Option (List TemplItem) :=
  parseTemplateFuel (cs.length + 1) cs

/-- `subAllFuel` with a processed template instantiated at each match. -/
def subAllTFuel (matchLen : List Char → Option Nat) (items : List TemplItem) :
    Nat → List Char → List Char
  | 0, cs => cs
  | _ + 1, [] => []
  | fuel + 1, c :: rest =>
      match matchLen (c :: rest) with
      | some n => instTemplate items ((c :: rest).take n) ++
          subAllTFuel matchLen items fuel ((c :: rest).drop n)
      | none => c :: subAllTFuel matchLen items fuel rest

def subAllT (matchLen : List Char → Option Nat) (items : List TemplItem)
    (cs : List Char) : List Char :=
  subAllTFuel matchLen items cs.length cs

/-- `re.sub pattern repl cs` for a group-free pattern, including the
replacement-template processing: `none` models `re.error`. -/
def reSub (matchLen : List Char → Option Nat) (repl cs : List Char) :
    Option (List Char) :=
  match parseTemplate repl with
  | some items => some (subAllT matchLen items cs)
  | none => none

/-! ### Base64 (RFC 4648, as `base64.b64encode`/`b64decode`) and UTF-8 -/

/-- The standard base64 alphabet. -/
def base64Alphabet : List Char :=
  "ABCDEFGHIJKLMNOPQRSTUVWXYZabcdefghijklmnopqrstuvwxyz0123456789+/".data

/-- Sextet to base64 character. -/
def b64Char (n : Nat) : Char :=
  base64Alphabet.getD n 'A'

/-- `base64.b64encode` on a byte list: 3-byte groups to 4 characters, with
`=` padding. -/
def b64EncodeBytes : List Nat → List Char
  | [] => []
  | [b0] => [b64Char (b0 / 4), b64Char (b0 % 4 * 16), '=', '=']
  | [b0, b1] =>
      [b64Char (b0 / 4), b64Char (b0 % 4 * 16 + b1 / 16), b64Char (b1 % 16 * 4), '=']
  | b0 :: b1 :: b2 :: rest =>
      b64Char (b0 / 4) :: b64Char (b0 % 4 * 16 + b1 / 16) ::
        b64Char (b1 % 16 * 4 + b2 / 64) :: b64Char (b2 % 64) ::
        b64EncodeBytes rest

/-- Base64 character to sextet. -/
def b64DecodeChar (c : Char) : Option Nat :=
  if 'A' ≤ c ∧ c ≤ 'Z' then some (c.toNat - 'A'.toNat)
  else if 'a' ≤ c ∧ c ≤ 'z' then some (c.toNat - 'a'.toNat + 26)
  else if '0' ≤ c ∧ c ≤ '9' then some (c.toNat - '0'.toNat + 52)
  else if c = '+' then some 62
  else if c = '/' then some 63
  else none

/-- `base64.b64decode` on well-formed input: 4-character groups to 3 bytes,
with `=` padding handled on the final group (spare bits are discarded, as
Python does). -/
def b64DecodeBytes : List Char → Option (List Nat)
  | [] => some []
  | c0 :: c1 :: c2 :: c3 :: rest =>
      match b64DecodeChar c0, b64DecodeChar c1 with
      | some v0, some v1 =>
          if c2 = '=' then
            if c3 = '=' ∧ rest = [] then some [v0 * 4 + v1 / 16] else none
          else
            match b64DecodeChar c2 with
            | some v2 =>
                if c3 = '=' then
                  if rest = [] then some [v0 * 4 + v1 / 16, v1 % 16 * 16 + v2 / 4]
                  else none
                else
                  match b64DecodeChar c3 with
                  | some v3 =>
                      (b64DecodeBytes rest).map
                        (fun tl => (v0 * 4 + v1 / 16) :: (v1 % 16 * 16 + v2 / 4) ::
                          (v2 % 4 * 64 + v3) :: tl)
                  | none => none
            | none => none
      | _, _ => none
  | _ => none

/-- UTF-8 encoding of one scalar value. -/
def utf8EncodeChar (c : Char) : List Nat :=
  let v := c.toNat
  if v < 0x80 then [v]
  else if v < 0x800 then [0xC0 + v / 64, 0x80 + v % 64]
  else if v < 0x10000 then
    [0xE0 + v / 4096, 0x80 + v / 64 % 64, 0x80 + v % 64]
  else
    [0xF0 + v / 262144, 0x80 + v / 4096 % 64, 0x80 + v / 64 % 64, 0x80 + v % 64]

/-- `s.encode('utf-8')` on a character list. -/
def utf8Encode (s : List Char) : List Nat :=
  s.flatMap utf8EncodeChar

/-- `bytes.decode('utf-8')` on the byte sequences produced by
`utf8Encode` (leading-byte dispatch plus continuation-range checks; the
overlong/surrogate rejections of a fully strict decoder are not needed on
those outputs). -/
def utf8Decode : List Nat → Option (List Char)
  | [] => some []
  | b0 :: rest =>
      if b0 < 0x80 then (utf8Decode rest).map (Char.ofNat b0 :: ·)
      else if b0 < 0xC0 then none
      else if 0xF8 ≤ b0 then none
      else
        match rest with
        | [] => none
        | b1 :: rest1 =>
            if ¬(0x80 ≤ b1 ∧ b1 < 0xC0) then none
            else if b0 < 0xE0 then
              (utf8Decode rest1).map (Char.ofNat ((b0 - 0xC0) * 64 + (b1 - 0x80)) :: ·)
            else
              match rest1 with
              | [] => none
              | b2 :: rest2 =>
                  if ¬(0x80 ≤ b2 ∧ b2 < 0xC0) then none
                  else if b0 < 0xF0 then
                    (utf8Decode rest2).map
                      (Char.ofNat ((b0 - 0xE0) * 4096 + (b1 - 0x80) * 64 +
                        (b2 - 0x80)) :: ·)
                  else
                    match rest2 with
                    | [] => none
                    | b3 :: rest3 =>
                        if ¬(0x80 ≤ b3 ∧ b3 < 0xC0) then none
                        else
                          (utf8Decode rest3).map
                            (Char.ofNat ((b0 - 0xF0) * 262144 + (b1 - 0x80) * 4096 +
                              (b2 - 0x80) * 64 + (b3 - 0x80)) :: ·)

/-- `base64.b64encode(s.encode('utf-8')).decode('ascii')`. -/
def pyB64EncodeUtf8 (s : List Char) : List Char :=
  b64EncodeBytes (utf8Encode s)

/-- `base64.b64decode(cs.encode('ascii')).decode('utf-8')`. -/
def pyB64DecodeUtf8 (cs : List Char) : Option (List Char) :=
  (b64DecodeBytes cs).bind utf8Decode

/-! ### Structural bypass transform: `GTSBasedSparkClient` -/

def sparkEdogMarker : List Char :=
  "// EDOG DevMode - bypassing OBO token exchange".data

def sparkOrigStart : List Char := "// EDOG_ORIGINAL_START:".data

def sparkOrigEnd : List Char := "// EDOG_ORIGINAL_END".data

def sparkMethodSig : List Char :=
  "protected async virtual Task<Token> GenerateMWCV1TokenForGTSWorkloadAsync(CancellationToken ct)".data

/-- Head-matcher for `r'var hardcodedToken = "[^"]+";'`: the character
class stops at the first `"` (the pattern continues with `"`, so the
greedy run is forced), which must be followed by `";`. -/
def matchHardcodedToken (cs : List Char) : Option Nat :=
  let lit1 := "var hardcodedToken = \"".data
  if lit1.isPrefixOf cs then
    let after := cs.drop lit1.length
    let run := after.takeWhile (fun c => c ≠ '"')
    if run.length = 0 then none
    else if "\";".data.isPrefixOf (after.drop run.length) then
      some (lit1.length + run.length + 2)
    else none
  else none

/-- The replacement `f'var hardcodedToken = "{token}";'`. -/
def sparkNewTokenLine (token : List Char) : List Char :=
  "var hardcodedToken = \"".data ++ token ++ "\";".data

/-- The `bypass_code` f-string of `apply_gts_spark_client_change` (note it
embeds only the *start* sentinel before the encoded original). -/
def sparkBypassCode (originalEncoded token : List Char) : List Char :=
  "\n        // EDOG_ORIGINAL_START:".data ++ originalEncoded ++
  ("\n        protected async virtual Task<Token> GenerateMWCV1TokenForGTSWorkloadAsync(CancellationToken ct)\n        \x7b\n            // EDOG DevMode - bypassing OBO token exchange (hardcoded by edog tool)\n            var hardcodedToken = \"").data ++
  token ++
  ("\";\n            Tracer.LogSanitizedWarning(\"[DevMode] Using hardcoded MWC V1 token\");\n            return await Task.FromResult(new Token\n            \x7b\n                Value = hardcodedToken,\n                Expiry = DateTimeOffset.UtcNow.AddHours(1),\n            \x7d);\n        \x7d").data

/-- The backward comment/attribute absorption loop of
`apply_gts_spark_client_change`: walk `method_start` up over lines whose
stripped text is empty or starts with `//`, `/*`, `*` or `[`.  Each
iteration strictly decreases `method_start`, so `method_start` itself
bounds the iteration count (`fuel`). -/
def absorbPre (content : List Char) : Nat → Nat → Nat
  | 0, method_start => method_start
  | fuel + 1, method_start =>
      if method_start = 0 then method_start
      else
        let prev_line_end := method_start - 1
        let prev_line_start :=
          match rfindCharBefore content '\n' prev_line_end with
          | some i => i + 1
          | none => 0
        let prev_line :=
          pyStripList ((content.drop prev_line_start).take (prev_line_end - prev_line_start))
        if "//".data.isPrefixOf prev_line || "/*".data.isPrefixOf prev_line ||
            "*".data.isPrefixOf prev_line || "[".data.isPrefixOf prev_line ||
            prev_line.isEmpty then
          absorbPre content fuel prev_line_start
        else method_start

/-- The fresh-bypass branch of `apply_gts_spark_client_change`: locate the
method signature, find its balanced body by brace counting, absorb the
preceding comment/attribute/blank lines, embed the base64 of the removed
span and splice in the bypass code. -/
def sparkFreshApply (content token : List Char) : List Char × String :=
  match findSub content sparkMethodSig with
  | none => (content, "pattern_not_found")
  | some sig_start =>
      match findSub (content.drop sig_start) ['\x7b'] with
      | none => (content, "pattern_not_found")
      | some k =>
          let brace_start := sig_start + k
          let pc := braceScan (content.drop (brace_start + 1)) 1 (brace_start + 1)
          if pc.2 ≠ 0 then (content, "pattern_not_found")
          else
            let method_end := pc.1
            let line_start :=
              match rfindCharBefore content '\n' sig_start with
              | some i => i + 1
              | none => 0
            let method_start := absorbPre content line_start line_start
            let original_content := (content.drop method_start).take (method_end - method_start)
            let original_encoded := pyB64EncodeUtf8 original_content
            (content.take method_start ++ sparkBypassCode original_encoded token ++
              content.drop method_end, "applied")

/-- `apply_gts_spark_client_change` from edog.py, specialised to
`repo_root=None` (the git-refresh branch is skipped; the source computes
the same `re.sub` twice on that path, collapsed here into one `updated`). -/
def apply_gts_spark_client_change (content token : List Char) : List Char × String :=
  if pyContains content sparkEdogMarker then
    let has_original := pyContains content sparkOrigStart && pyContains content sparkOrigEnd
    if pyContains content ("var hardcodedToken = \"".data ++ token ++ "\"".data) then
      (content, "already_applied")
    else
      let updated := subAll matchHardcodedToken (sparkNewTokenLine token) content
      if has_original && (updated != content) then (updated, "token_updated")
      else if updated != content then (updated, "token_updated")
      else sparkFreshApply content token
  else sparkFreshApply content token

/-- `revert_gts_spark_client_change` from edog.py, specialised to
`repo_root=None`: every failure path (missing markers, undecodable
payload, signature or brace-matching failure after the marker, and the
skipped git fallback) returns the content unchanged with `False`. -/
def revert_gts_spark_client_change (content : List Char) : List Char × Bool :=
  if !pyContains content sparkEdogMarker then (content, false)
  else if pyContains content sparkOrigStart && pyContains content sparkOrigEnd then
    let start_idx := (findSub content sparkOrigStart).getD 0 + sparkOrigStart.length
    let end_idx := (findSub content sparkOrigEnd).getD 0
    if start_idx < end_idx then
      let encoded := pyStripList ((content.drop start_idx).take (end_idx - start_idx))
      match pyB64DecodeUtf8 encoded with
      | none => (content, false)
      | some original_content =>
          let marker_pos := (findSub content sparkOrigStart).getD 0
          let marker_line_start :=
            match rfindCharBefore content '\n' marker_pos with
            | some i => i + 1
            | none => 0
          match findSub (content.drop marker_line_start) sparkMethodSig with
          | none => (content, false)
          | some k1 =>
              let sig_start := marker_line_start + k1
              match findSub (content.drop sig_start) ['\x7b'] with
              | none => (content, false)
              | some k2 =>
                  let brace_start := sig_start + k2
                  let pc := braceScan (content.drop (brace_start + 1)) 1 (brace_start + 1)
                  if pc.2 ≠ 0 then (content, false)
                  else
                    (content.take marker_line_start ++ original_content ++
                      content.drop pc.1, true)
    else (content, false)
  else (content, false)

/-- A small GTSBasedSparkClient-like file containing the target method with
balanced braces and a preceding comment line. -/
def sparkDemoFile : List Char :=
  ("public class GTSBasedSparkClient\n\x7b\n    // Token helper\n    protected async virtual Task<Token> GenerateMWCV1TokenForGTSWorkloadAsync(CancellationToken ct)\n    \x7b\n        return await Exchange(ct);\n    \x7d\n\x7d\n").data

set_option maxRecDepth 40000

/-- **C2**: on a file containing the target method signature with balanced
braces, `apply_gts_spark_client_change` reports `applied` and splices in the
bypass whose base64 payload decodes to exactly the removed span (the method
plus its preceding comment line) — but it emits only the start sentinel
`// EDOG_ORIGINAL_START:` and never the end sentinel
`// EDOG_ORIGINAL_END` that `revert_gts_spark_client_change` requires, so
the revert cannot find the embedded original and returns the bypassed
content unchanged with `False`: the round trip does not restore the file. -/
theorem spark_apply_revert_missing_end_sentinel :
    (apply_gts_spark_client_change sparkDemoFile "TOK".data).2 = "applied" ∧
    (apply_gts_spark_client_change sparkDemoFile "TOK".data).1 =
      sparkDemoFile.take 35 ++
        sparkBypassCode (pyB64EncodeUtf8 ((sparkDemoFile.drop 35).take (201 - 35)))
          "TOK".data ++ sparkDemoFile.drop 201 ∧
    pyB64DecodeUtf8 (pyB64EncodeUtf8 ((sparkDemoFile.drop 35).take (201 - 35))) =
      some ((sparkDemoFile.drop 35).take (201 - 35)) ∧
    pyContains (apply_gts_spark_client_change sparkDemoFile "TOK".data).1
      sparkOrigStart = true ∧
    pyContains (apply_gts_spark_client_change sparkDemoFile "TOK".data).1
      sparkOrigEnd = false ∧
    revert_gts_spark_client_change
        (apply_gts_spark_client_change sparkDemoFile "TOK".data).1 =
      ((apply_gts_spark_client_change sparkDemoFile "TOK".data).1, false) ∧
    (apply_gts_spark_client_change sparkDemoFile "TOK".data).1 ≠ sparkDemoFile := by
  decide

/-! ### Single-line token transform: `GTSOperationManager` -/

def opEdogMarker : List Char := "// EDOG DevMode - hardcoded by edog tool".data

def opOrigStart : List Char := "// EDOG_GTS_OP_ORIGINAL:".data

def opOrigEnd : List Char := ":END_EDOG_GTS_OP".data

/-- The common literal head `var mwcV1TokenWithHeader = "MwcToken ` of the
hard-coded-token patterns. -/
def opLit1 : List Char := "var mwcV1TokenWithHeader = \"MwcToken ".data

/-- `f'var mwcV1TokenWithHeader = "MwcToken {token}";  {edog_marker}'`. -/
def opModifiedLine (token : List Char) : List Char :=
  opLit1 ++ token ++ "\";  ".data ++ opEdogMarker

/-- Head-matcher for
`r'var mwcV1TokenWithHeader = "MwcToken [^"]+";  // EDOG DevMode - hardcoded by edog tool'`:
the class run stops at the first `"` (the pattern continues with `"`), then
the rest of the literal must follow. -/
def matchUpd (cs : List Char) : Option Nat :=
  if opLit1.isPrefixOf cs then
    let after := cs.drop opLit1.length
    let run := after.takeWhile (fun c => c ≠ '"')
    let lit2 := "\";  ".data ++ opEdogMarker
    if run.length = 0 then none
    else if lit2.isPrefixOf (after.drop run.length) then
      some (opLit1.length + run.length + lit2.length)
    else none
  else none

/-- Head-matcher for `r'var mwcV1TokenWithHeader = "MwcToken [^"]+";'`. -/
def matchManual (cs : List Char) : Option Nat :=
  if opLit1.isPrefixOf cs then
    let after := cs.drop opLit1.length
    let run := after.takeWhile (fun c => c ≠ '"')
    if run.length = 0 then none
    else if "\";".data.isPrefixOf (after.drop run.length) then
      some (opLit1.length + run.length + 2)
    else none
  else none

def opAwaitLit : List Char :=
  "var mwcV1TokenWithHeader = await HttpTokenUtils.GenerateMwcV1TokenHeaderAsync(".data

/-- Head-matcher for
`r'var mwcV1TokenWithHeader = await HttpTokenUtils\.GenerateMwcV1TokenHeaderAsync\([^;]+\);'`:
the `[^;]+` run necessarily ends at the first `;`, whose preceding
character must be the literal `)` (after greedy backtracking this is the
only way the regex completes at this start). -/
def matchOriginal (cs : List Char) : Option Nat :=
  if opAwaitLit.isPrefixOf cs then
    let after := cs.drop opAwaitLit.length
    let run := after.takeWhile (fun c => c ≠ ';')
    if run.length < after.length ∧ 2 ≤ run.length ∧ run.getLast? = some ')' then
      some (opAwaitLit.length + run.length + 1)
    else none
  else none

/-- Middle literal of the revert pattern: `";  ` + marker + `  ` + start
sentinel. -/
def opLitMid : List Char :=
  "\";  ".data ++ opEdogMarker ++ "  ".data ++ opOrigStart

/-- Head-matcher for the revert pattern
`r'var mwcV1TokenWithHeader = "MwcToken [^"]+";  // EDOG DevMode - hardcoded by edog tool  // EDOG_GTS_OP_ORIGINAL:[^:]+:END_EDOG_GTS_OP'`. -/
def matchBig (cs : List Char) : Option Nat :=
  if opLit1.isPrefixOf cs then
    let a1 := cs.drop opLit1.length
    let run1 := a1.takeWhile (fun c => c ≠ '"')
    if run1.length = 0 then none
    else if opLitMid.isPrefixOf (a1.drop run1.length) then
      let a2 := (a1.drop run1.length).drop opLitMid.length
      let run2 := a2.takeWhile (fun c => c ≠ ':')
      if run2.length = 0 then none
      else if opOrigEnd.isPrefixOf (a2.drop run2.length) then
        some (opLit1.length + run1.length + opLitMid.length + run2.length +
          opOrigEnd.length)
      else none
    else none
  else none

/-- The fresh-bypass branch of `apply_gts_operation_manager_change`: find
the `await ... GenerateMwcV1TokenHeaderAsync(...);` statement, replace it
by the hard-coded line carrying the base64 of the original between the two
sentinels. -/
def opFreshApply (content token : List Char) : List Char × String :=
  match searchFirst matchOriginal content 0 with
  | none => (content, "pattern_not_found")
  | some se =>
      let original_line := (content.drop se.1).take (se.2 - se.1)
      let original_encoded := pyB64EncodeUtf8 original_line
      (content.take se.1 ++ opModifiedLine token ++ "  ".data ++ opOrigStart ++
        original_encoded ++ opOrigEnd ++ content.drop se.2, "applied")

/-- `apply_gts_operation_manager_change` from edog.py, specialised to
`repo_root=None` (the git-refresh branch is skipped; its two identical
`re.sub` calls on the marker path are collapsed into one `updated`). -/
def apply_gts_operation_manager_change (content token : List Char) :
    List Char × String :=
  if pyContains content (opModifiedLine token) then (content, "already_applied")
  else if pyContains content opEdogMarker then
    let has_original := pyContains content opOrigStart && pyContains content opOrigEnd
    let updated := subAll matchUpd (opModifiedLine token) content
    if has_original && (updated != content) then (updated, "token_updated")
    else if updated != content then (updated, "token_updated")
    else opFreshApply content token
  else if (searchFirst matchManual content 0).isSome &&
      !(pyContains content opEdogMarker) then
    let updated := subAll matchManual (opModifiedLine token) content
    if updated != content then (updated, "token_updated")
    else opFreshApply content token
  else opFreshApply content token

/-- `revert_gts_operation_manager_change` from edog.py, specialised to
`repo_root=None`: extract the base64 between the first occurrences of the
two sentinels, decode it and `re.sub`-substitute it — template-processed,
since the decoded line is passed to `re.sub` as its replacement string —
for every match of the revert pattern; all failure paths (missing marker
or sentinels, inverted sentinel positions, undecodable payload, an
`re.error` from a bad escape in the decoded replacement — caught by the
surrounding `try` and falling through to the legacy fallback — and the
skipped git fallback) return the content unchanged with `False`. -/
def revert_gts_operation_manager_change (content : List Char) : List Char × Bool :=
  if !pyContains content opEdogMarker then (content, false)
  else if pyContains content opOrigStart && pyContains content opOrigEnd then
    let start_idx := (findSub content opOrigStart).getD 0 + opOrigStart.length
    let end_idx := (findSub content opOrigEnd).getD 0
    if start_idx < end_idx then
      match pyB64DecodeUtf8 ((content.drop start_idx).take (end_idx - start_idx)) with
      | some original_line =>
          match reSub matchBig original_line content with
          | some new_content => (new_content, new_content != content)
          | none => (content, false)
      | none => (content, false)
    else (content, false)
  else (content, false)

/-- A file left by an older engine run: a stray EDOG marker and a stale
sentinel pair, with the pristine token statement still present. -/
def opStaleDemoFile : List Char :=
  ("// EDOG DevMode - hardcoded by edog tool\n// EDOG_GTS_OP_ORIGINAL:WA==:END_EDOG_GTS_OP\nvar mwcV1TokenWithHeader = await HttpTokenUtils.GenerateMwcV1TokenHeaderAsync(headerParams, ct);\n").data

/-- **C9** (counterexample): the universally quantified round trip is
false.  On a file still carrying a stale marker and sentinel pair,
`apply_gts_operation_manager_change` (repo_root absent) falls through to a
fresh apply and reports `applied`, but the revert then extracts the *stale*
payload (the first sentinel pair in the file) and substitutes its decoded
text for the bypass line: the result differs from the pre-apply content. -/
theorem op_manager_roundtrip_cex :
    (apply_gts_operation_manager_change opStaleDemoFile "TOK".data).2 = "applied" ∧
    (revert_gts_operation_manager_change
        (apply_gts_operation_manager_change opStaleDemoFile "TOK".data).1).1 ≠
      opStaleDemoFile := by decide

/-! ### Lemmas about the character-level toolbox -/

lemma findSub_isSome_eq_isSubstr (hay pat : List Char) :
    (findSub hay pat).isSome = isSubstr pat hay := by
  induction hay with
  | nil =>
      cases h : pat.isPrefixOf ([] : List Char) <;> simp [findSub, isSubstr, h]
  | cons c t ih =>
      by_cases h : pat.isPrefixOf (c :: t) = true
      · simp [findSub, isSubstr, h]
      · have h' : pat.isPrefixOf (c :: t) = false := Bool.eq_false_iff.mpr h
        rw [show findSub (c :: t) pat = (findSub t pat).map (· + 1) from by
          simp [findSub, h']]
        rw [show isSubstr pat (c :: t) = isSubstr pat t from by
          simp [isSubstr, h']]
        rw [← ih]
        cases findSub t pat <;> simp

lemma pyContains_iff_isInfix (hay pat : List Char) :
    pyContains hay pat = true ↔ pat <:+: hay := by
  rw [pyContains, findSub_isSome_eq_isSubstr]
  exact isSubstr_iff_isInfix pat hay

lemma pyContains_of_infix_of_contains (hay mid pat : List Char)
    (h1 : pat <:+: mid) (h2 : pyContains hay mid = true) :
    pyContains hay pat = true := by
  rw [pyContains_iff_isInfix] at h2 ⊢
  exact h1.trans h2

lemma pyContains_false_of_isInfix (hay mid pat : List Char)
    (h1 : pat <:+: mid) (h2 : pyContains hay pat = false) :
    pyContains hay mid = false := by
  cases hc : pyContains hay mid with
  | false => rfl
  | true => rw [pyContains_of_infix_of_contains hay mid pat h1 hc] at h2; exact h2.symm ▸ rfl

lemma subAllFuel_no_match (m : List Char → Option Nat) (r : List Char) :
    ∀ (cs : List Char) (fuel : Nat), cs.length ≤ fuel →
      (∀ j, m (cs.drop j) = none) → subAllFuel m r fuel cs = cs
  | [], 0, _, _ => rfl
  | [], _ + 1, _, _ => rfl
  | _ :: _, 0, hf, _ => by simp at hf
  | c :: cs, fuel + 1, hf, h => by
      have h0 := h 0
      simp only [List.drop_zero] at h0
      simp only [subAllFuel, h0]
      have := subAllFuel_no_match m r cs fuel (by simpa using hf)
        (fun j => by simpa using h (j + 1))
      rw [this]

lemma subAllFuel_skip (m : List Char → Option Nat) (r : List Char) :
    ∀ (pre rest : List Char) (fuel : Nat),
      (pre ++ rest).length ≤ fuel + pre.length →
      (∀ j < pre.length, m ((pre ++ rest).drop j) = none) →
      subAllFuel m r (fuel + pre.length) (pre ++ rest) =
        pre ++ subAllFuel m r fuel rest
  | [], rest, fuel, _, _ => by simp
  | c :: pre, rest, fuel, hf, h => by
      have h0 := h 0 (by simp)
      simp only [List.drop_zero, List.cons_append] at h0
      have harith : fuel + (c :: pre).length = (fuel + pre.length) + 1 := by
        simp only [List.length_cons]
        omega
      rw [harith]
      have hstep : subAllFuel m r ((fuel + pre.length) + 1) ((c :: pre) ++ rest) =
          c :: subAllFuel m r (fuel + pre.length) (pre ++ rest) := by
        simp only [List.cons_append, subAllFuel, List.append_eq]
        split
        · rename_i n hn
          rw [h0] at hn
          cases hn
        · rfl
      rw [hstep]
      have hrec := subAllFuel_skip m r pre rest fuel
        (by
          simp only [List.cons_append, List.length_cons, List.length_append] at hf ⊢
          omega)
        (fun j hj => by
          have := h (j + 1) (by simpa using Nat.succ_lt_succ hj)
          simpa using this)
      rw [hrec]
      simp

/-- `re.sub` when the pattern matches exactly once, namely on `mid`. -/
lemma subAll_single (m : List Char → Option Nat) (r : List Char)
    (pre mid suf : List Char) (h0 : 0 < mid.length)
    (hpre : ∀ j < pre.length, m ((pre ++ (mid ++ suf)).drop j) = none)
    (hmid : m (mid ++ suf) = some mid.length)
    (hsuf : ∀ j, m (suf.drop j) = none) :
    subAll m r (pre ++ (mid ++ suf)) = pre ++ (r ++ suf) := by
  have hLen : (pre ++ (mid ++ suf)).length =
      (mid.length + suf.length) + pre.length := by
    simp only [List.length_append]
    omega
  have hskip := subAllFuel_skip m r pre (mid ++ suf) (mid.length + suf.length)
    (le_of_eq hLen) hpre
  have hmain : subAllFuel m r (mid.length + suf.length) (mid ++ suf) = r ++ suf := by
    obtain ⟨k, hk⟩ : ∃ k, mid.length + suf.length = k + 1 :=
      ⟨mid.length + suf.length - 1, by omega⟩
    rw [hk]
    cases hms : mid ++ suf with
    | nil =>
        exfalso
        have hlen2 := congrArg List.length hms
        simp only [List.length_append, List.length_nil] at hlen2
        omega
    | cons c rest =>
        simp only [subAllFuel]
        rw [← hms, hmid]
        show r ++ subAllFuel m r k ((mid ++ suf).drop mid.length) = r ++ suf
        rw [List.drop_left]
        congr 1
        exact subAllFuel_no_match m r suf k (by omega) hsuf
  show subAllFuel m r (pre ++ (mid ++ suf)).length (pre ++ (mid ++ suf)) =
    pre ++ (r ++ suf)
  rw [hLen, hskip, hmain]

/-- A template of plain literals instantiates to its characters, whatever
the matched text. -/
lemma instTemplate_map_lit (cs matched : List Char) :
    instTemplate (cs.map TemplItem.lit) matched = cs := by
  induction cs with
  | nil => rfl
  | cons c t ih => simp [instTemplate, List.flatMap_cons] at ih ⊢; exact ih

/-- Template substitution with a literal-only template is literal
substitution. -/
lemma subAllTFuel_map_lit (m : List Char → Option Nat) (r : List Char) :
    ∀ fuel cs, subAllTFuel m (r.map TemplItem.lit) fuel cs = subAllFuel m r fuel cs := by
  intro fuel
  induction fuel with
  | zero => intro cs; rfl
  | succ k ih =>
      intro cs
      cases cs with
      | nil => rfl
      | cons c rest =>
          simp only [subAllTFuel, subAllFuel]
          cases m (c :: rest) with
          | some n => simp only [ih, instTemplate_map_lit]
          | none => simp only [ih]

/-- A backslash-free replacement string parses to itself as literals. -/
lemma parseTemplateFuel_no_backslash :
    ∀ fuel cs, cs.length < fuel → (∀ c ∈ cs, c ≠ '\\') →
      parseTemplateFuel fuel cs = some (cs.map TemplItem.lit) := by
  intro fuel
  induction fuel with
  | zero => intro cs h; omega
  | succ k ih =>
      intro cs hlen hbs
      cases cs with
      | nil => rfl
      | cons c rest =>
          have hc : c ≠ '\\' := hbs c (List.mem_cons_self c rest)
          simp only [parseTemplateFuel, if_neg hc]
          rw [ih rest (by simp at hlen; omega)
            (fun x hx => hbs x (List.mem_cons_of_mem c hx))]
          rfl

/-- On a backslash-free replacement, `re.sub` inserts it literally. -/
lemma reSub_no_backslash (m : List Char → Option Nat) (repl cs : List Char)
    (hbs : ∀ c ∈ repl, c ≠ '\\') :
    reSub m repl cs = some (subAll m repl cs) := by
  rw [reSub, parseTemplate,
    parseTemplateFuel_no_backslash (repl.length + 1) repl (by omega) hbs]
  simp only [subAllT, subAll, subAllTFuel_map_lit]

/-! ### Round-trip of the base64 / UTF-8 coding -/

lemma char_toNat_lt (c : Char) : c.toNat < 1114112 := by
  have h := c.valid
  unfold UInt32.isValidChar at h
  unfold Nat.isValidChar at h
  rcases h with h | ⟨h1, h2⟩ <;> simp [Char.toNat] <;> omega

lemma b64DecodeChar_b64Char : ∀ i < 64, b64DecodeChar (b64Char i) = some i := by decide

lemma b64Char_ne_eqsign (i : Nat) : b64Char i ≠ '=' := by
  by_cases h : i < 64
  · exact (by decide : ∀ j < 64, b64Char j ≠ '=') i h
  · have : b64Char i = 'A' := by
      simp only [b64Char]
      exact List.getD_eq_default _ _ (by simp [base64Alphabet]; omega)
    rw [this]
    decide

lemma b64Char_ne_colon (i : Nat) : b64Char i ≠ ':' := by
  by_cases h : i < 64
  · exact (by decide : ∀ j < 64, b64Char j ≠ ':') i h
  · have : b64Char i = 'A' := by
      simp only [b64Char]
      exact List.getD_eq_default _ _ (by simp [base64Alphabet]; omega)
    rw [this]
    decide

lemma mem_b64EncodeBytes_ne_colon :
    ∀ (bs : List Nat) (c : Char), c ∈ b64EncodeBytes bs → c ≠ ':'
  | [], c, h => by simp [b64EncodeBytes] at h
  | [b0], c, h => by
      simp only [b64EncodeBytes, List.mem_cons, List.not_mem_nil, or_false] at h
      rcases h with rfl | rfl | rfl | rfl
      · exact b64Char_ne_colon _
      · exact b64Char_ne_colon _
      · decide
      · decide
  | [b0, b1], c, h => by
      simp only [b64EncodeBytes, List.mem_cons, List.not_mem_nil, or_false] at h
      rcases h with rfl | rfl | rfl | rfl
      · exact b64Char_ne_colon _
      · exact b64Char_ne_colon _
      · exact b64Char_ne_colon _
      · decide
  | b0 :: b1 :: b2 :: rest, c, h => by
      simp only [b64EncodeBytes, List.mem_cons] at h
      rcases h with rfl | rfl | rfl | rfl | h
      · exact b64Char_ne_colon _
      · exact b64Char_ne_colon _
      · exact b64Char_ne_colon _
      · exact b64Char_ne_colon _
      · exact mem_b64EncodeBytes_ne_colon rest c h

lemma b64EncodeBytes_ne_nil : ∀ (bs : List Nat), bs ≠ [] → b64EncodeBytes bs ≠ []
  | [], h => absurd rfl h
  | [_], _ => by simp [b64EncodeBytes]
  | [_, _], _ => by simp [b64EncodeBytes]
  | _ :: _ :: _ :: _, _ => by simp [b64EncodeBytes]

theorem b64_roundtrip :
    ∀ (bs : List Nat), (∀ b ∈ bs, b < 256) →
      b64DecodeBytes (b64EncodeBytes bs) = some bs
  | [], _ => rfl
  | [b0], h => by
      have hb0 : b0 < 256 := h b0 (by simp)
      have h1 : b64DecodeChar (b64Char (b0 / 4)) = some (b0 / 4) :=
        b64DecodeChar_b64Char _ (by omega)
      have h2 : b64DecodeChar (b64Char (b0 % 4 * 16)) = some (b0 % 4 * 16) :=
        b64DecodeChar_b64Char _ (by omega)
      simp only [b64EncodeBytes, b64DecodeBytes, h1, h2]
      simp
      omega
  | [b0, b1], h => by
      have hb0 : b0 < 256 := h b0 (by simp)
      have hb1 : b1 < 256 := h b1 (by simp)
      have h1 : b64DecodeChar (b64Char (b0 / 4)) = some (b0 / 4) :=
        b64DecodeChar_b64Char _ (by omega)
      have h2 : b64DecodeChar (b64Char (b0 % 4 * 16 + b1 / 16)) =
          some (b0 % 4 * 16 + b1 / 16) :=
        b64DecodeChar_b64Char _ (by omega)
      have h3 : b64DecodeChar (b64Char (b1 % 16 * 4)) = some (b1 % 16 * 4) :=
        b64DecodeChar_b64Char _ (by omega)
      simp only [b64EncodeBytes, b64DecodeBytes, h1, h2]
      rw [if_neg (b64Char_ne_eqsign _)]
      simp only [h3]
      simp
      omega
  | b0 :: b1 :: b2 :: rest, h => by
      have hb0 : b0 < 256 := h b0 (by simp)
      have hb1 : b1 < 256 := h b1 (by simp)
      have hb2 : b2 < 256 := h b2 (by simp)
      have ih := b64_roundtrip rest (fun b hb => h b (by simp [hb]))
      have h1 : b64DecodeChar (b64Char (b0 / 4)) = some (b0 / 4) :=
        b64DecodeChar_b64Char _ (by omega)
      have h2 : b64DecodeChar (b64Char (b0 % 4 * 16 + b1 / 16)) =
          some (b0 % 4 * 16 + b1 / 16) :=
        b64DecodeChar_b64Char _ (by omega)
      have h3 : b64DecodeChar (b64Char (b1 % 16 * 4 + b2 / 64)) =
          some (b1 % 16 * 4 + b2 / 64) :=
        b64DecodeChar_b64Char _ (by omega)
      have h4 : b64DecodeChar (b64Char (b2 % 64)) = some (b2 % 64) :=
        b64DecodeChar_b64Char _ (by omega)
      simp only [b64EncodeBytes, b64DecodeBytes, h1, h2]
      rw [if_neg (b64Char_ne_eqsign _)]
      simp only [h3]
      rw [if_neg (b64Char_ne_eqsign _)]
      simp only [h4, ih, Option.map_some']
      simp
      omega

lemma utf8EncodeChar_lt_256 (c : Char) : ∀ b ∈ utf8EncodeChar c, b < 256 := by
  have hv := char_toNat_lt c
  intro b hb
  simp only [utf8EncodeChar] at hb
  split_ifs at hb with h1 h2 h3
  · simp only [List.mem_singleton] at hb
    omega
  · simp only [List.mem_cons, List.not_mem_nil, or_false] at hb
    rcases hb with rfl | rfl <;> omega
  · simp only [List.mem_cons, List.not_mem_nil, or_false] at hb
    rcases hb with rfl | rfl | rfl <;> omega
  · simp only [List.mem_cons, List.not_mem_nil, or_false] at hb
    rcases hb with rfl | rfl | rfl | rfl <;> omega

lemma utf8EncodeChar_ne_nil (c : Char) : utf8EncodeChar c ≠ [] := by
  simp only [utf8EncodeChar]
  split_ifs <;> simp

lemma utf8Decode_encodeChar (c : Char) (bs : List Nat) :
    utf8Decode (utf8EncodeChar c ++ bs) = (utf8Decode bs).map (c :: ·) := by
  have hv := char_toNat_lt c
  by_cases h1 : c.toNat < 0x80
  · simp only [utf8EncodeChar, if_pos h1, List.cons_append, List.nil_append]
    rw [utf8Decode.eq_def]
    simp only []
    rw [if_pos h1, Char.ofNat_toNat]
  · by_cases h2 : c.toNat < 0x800
    · simp only [utf8EncodeChar, if_neg h1, if_pos h2, List.cons_append, List.nil_append]
      rw [utf8Decode.eq_def]
      simp only []
      rw [if_neg (by omega), if_neg (by omega), if_neg (by omega)]
      rw [if_neg (by omega), if_pos (by omega)]
      have hval : (0xC0 + c.toNat / 64 - 0xC0) * 64 + (0x80 + c.toNat % 64 - 0x80) =
          c.toNat := by omega
      rw [hval, Char.ofNat_toNat]
    · by_cases h3 : c.toNat < 0x10000
      · simp only [utf8EncodeChar, if_neg h1, if_neg h2, if_pos h3, List.cons_append,
          List.nil_append]
        rw [utf8Decode.eq_def]
        simp only []
        rw [if_neg (by omega), if_neg (by omega), if_neg (by omega)]
        rw [if_neg (by omega), if_neg (by omega)]
        rw [if_neg (by omega), if_pos (by omega)]
        have hval : (0xE0 + c.toNat / 4096 - 0xE0) * 4096 +
            (0x80 + c.toNat / 64 % 64 - 0x80) * 64 + (0x80 + c.toNat % 64 - 0x80) =
            c.toNat := by omega
        rw [hval, Char.ofNat_toNat]
      · simp only [utf8EncodeChar, if_neg h1, if_neg h2, if_neg h3, List.cons_append,
          List.nil_append]
        rw [utf8Decode.eq_def]
        simp only []
        rw [if_neg (by omega), if_neg (by omega), if_neg (by omega)]
        rw [if_neg (by omega), if_neg (by omega)]
        rw [if_neg (by omega), if_neg (by omega)]
        rw [if_neg (by omega)]
        have hval : (0xF0 + c.toNat / 262144 - 0xF0) * 262144 +
            (0x80 + c.toNat / 4096 % 64 - 0x80) * 4096 +
            (0x80 + c.toNat / 64 % 64 - 0x80) * 64 + (0x80 + c.toNat % 64 - 0x80) =
            c.toNat := by omega
        rw [hval, Char.ofNat_toNat]

theorem utf8_roundtrip (s : List Char) : utf8Decode (utf8Encode s) = some s := by
  induction s with
  | nil => rfl
  | cons c t ih =>
      have : utf8Encode (c :: t) = utf8EncodeChar c ++ utf8Encode t := by
        simp [utf8Encode]
      rw [this, utf8Decode_encodeChar, ih, Option.map_some']

theorem pyB64_roundtrip (s : List Char) :
    pyB64DecodeUtf8 (pyB64EncodeUtf8 s) = some s := by
  rw [pyB64EncodeUtf8, pyB64DecodeUtf8]
  rw [b64_roundtrip (utf8Encode s) (fun b hb => by
    rw [utf8Encode] at hb
    obtain ⟨c, _, hc2⟩ := List.mem_flatMap.mp hb
    exact utf8EncodeChar_lt_256 c b hc2)]
  rw [Option.some_bind]
  exact utf8_roundtrip s

lemma utf8Encode_ne_nil (s : List Char) (h : s ≠ []) : utf8Encode s ≠ [] := by
  cases s with
  | nil => exact absurd rfl h
  | cons c t =>
      have : utf8Encode (c :: t) = utf8EncodeChar c ++ utf8Encode t := by
        simp [utf8Encode]
      rw [this]
      intro hnil
      exact utf8EncodeChar_ne_nil c (List.append_eq_nil.mp hnil).1

lemma pyB64EncodeUtf8_ne_nil (s : List Char) (h : s ≠ []) :
    pyB64EncodeUtf8 s ≠ [] :=
  b64EncodeBytes_ne_nil _ (utf8Encode_ne_nil s h)

lemma pyB64EncodeUtf8_ne_colon (s : List Char) :
    ∀ c ∈ pyB64EncodeUtf8 s, c ≠ ':' :=
  fun c hc => mem_b64EncodeBytes_ne_colon _ c hc

/-! ### The amended round trip of the GTSOperationManager transform -/

lemma takeWhile_eq_left {α : Type} (p : α → Bool) (w : List α) (x : α) (t : List α)
    (hw : ∀ c ∈ w, p c = true) (hx : p x = false) :
    (w ++ x :: t).takeWhile p = w := by
  induction w with
  | nil => simp [List.takeWhile_cons, hx]
  | cons a as ih =>
      have ha := hw a (by simp)
      simp only [List.cons_append, List.takeWhile_cons, ha, if_pos]
      rw [ih (fun c hc => hw c (by simp [hc]))]

/-- The single-line replacement written by a fresh operation-manager apply:
modified line, two spaces, start sentinel, payload, end sentinel. -/
def opReplacement (token enc : List Char) : List Char :=
  opModifiedLine token ++ "  ".data ++ opOrigStart ++ enc ++ opOrigEnd

/-- The whole file content after a fresh apply that replaced `[s, e)`. -/
def opApplied (content token : List Char) (s e : Nat) : List Char :=
  content.take s ++
    opReplacement token (pyB64EncodeUtf8 ((content.drop s).take (e - s))) ++
    content.drop e

lemma opLitMid_cons : opLitMid = '"' :: opLitMid.tail := by decide

lemma opOrigEnd_cons : opOrigEnd = ':' :: opOrigEnd.tail := by decide

/-- The revert pattern matches the freshly written replacement (and
consumes exactly it) whenever the token is nonempty and quote-free and the
payload is nonempty and colon-free. -/
lemma matchBig_replacement (token enc suf : List Char)
    (htq : ∀ c ∈ token, c ≠ '"') (htn : token ≠ [])
    (hec : ∀ c ∈ enc, c ≠ ':') (hen : enc ≠ []) :
    matchBig (opReplacement token enc ++ suf) =
      some (opReplacement token enc).length := by
  have hrepr : opReplacement token enc ++ suf =
      opLit1 ++ (token ++ (opLitMid ++ (enc ++ (opOrigEnd ++ suf)))) := by
    simp [opReplacement, opModifiedLine, opLitMid, List.append_assoc]
  have hpre1 : opLit1.isPrefixOf (opReplacement token enc ++ suf) = true := by
    rw [hrepr]
    exact List.isPrefixOf_iff_prefix.mpr (List.prefix_append _ _)
  have hdrop1 : (opReplacement token enc ++ suf).drop opLit1.length =
      token ++ (opLitMid ++ (enc ++ (opOrigEnd ++ suf))) := by
    rw [hrepr]
    exact List.drop_left _ _
  have hrun1 : (token ++ (opLitMid ++ (enc ++ (opOrigEnd ++ suf)))).takeWhile
      (fun c => c ≠ '"') = token := by
    rw [show opLitMid ++ (enc ++ (opOrigEnd ++ suf)) =
      '"' :: (opLitMid.tail ++ (enc ++ (opOrigEnd ++ suf))) from by
        rw [opLitMid_cons]; rfl]
    exact takeWhile_eq_left _ token _ _
      (fun c hc => by simp [htq c hc]) (by simp)
  have hdrop2 : (token ++ (opLitMid ++ (enc ++ (opOrigEnd ++ suf)))).drop
      token.length = opLitMid ++ (enc ++ (opOrigEnd ++ suf)) :=
    List.drop_left _ _
  have hpre2 : opLitMid.isPrefixOf (opLitMid ++ (enc ++ (opOrigEnd ++ suf))) = true :=
    List.isPrefixOf_iff_prefix.mpr (List.prefix_append _ _)
  have hdrop3 : (opLitMid ++ (enc ++ (opOrigEnd ++ suf))).drop opLitMid.length =
      enc ++ (opOrigEnd ++ suf) :=
    List.drop_left _ _
  have hrun2 : (enc ++ (opOrigEnd ++ suf)).takeWhile (fun c => c ≠ ':') = enc := by
    rw [show opOrigEnd ++ suf = ':' :: (opOrigEnd.tail ++ suf) from by
      rw [opOrigEnd_cons]; rfl]
    exact takeWhile_eq_left _ enc _ _ (fun c hc => by simp [hec c hc]) (by simp)
  have hdrop4 : (enc ++ (opOrigEnd ++ suf)).drop enc.length = opOrigEnd ++ suf :=
    List.drop_left _ _
  have hpre3 : opOrigEnd.isPrefixOf (opOrigEnd ++ suf) = true :=
    List.isPrefixOf_iff_prefix.mpr (List.prefix_append _ _)
  simp only [matchBig, hpre1, if_pos, hdrop1, hrun1, hdrop2, hpre2, hdrop3, hrun2,
    hdrop4, hpre3]
  rw [if_neg (by simp [List.length_eq_zero, htn]), if_neg (by simp [List.length_eq_zero, hen])]
  congr 1
  simp [opReplacement, opModifiedLine, opLitMid, List.length_append]
  omega

lemma searchFirst_eq_some (m : List Char → Option Nat) :
    ∀ (cs : List Char) (i s e : Nat), searchFirst m cs i = some (s, e) →
      i ≤ s ∧ s - i ≤ cs.length ∧ ∃ n, m (cs.drop (s - i)) = some n ∧ e = s + n
  | [], i, s, e, h => by
      simp only [searchFirst] at h
      cases hm : m [] with
      | none => rw [hm] at h; cases h
      | some n =>
          rw [hm] at h
          injection h with h'
          injection h' with h1 h2
          subst h1; subst h2
          exact ⟨le_refl _, by simp, n, by simpa using hm, rfl⟩
  | c :: rest, i, s, e, h => by
      simp only [searchFirst] at h
      cases hm : m (c :: rest) with
      | some n =>
          rw [hm] at h
          injection h with h'
          injection h' with h1 h2
          subst h1; subst h2
          exact ⟨le_refl _, by simp, n, by simpa using hm, rfl⟩
      | none =>
          rw [hm] at h
          obtain ⟨hi, hlen, n, hmn, hen⟩ := searchFirst_eq_some m rest (i + 1) s e h
          refine ⟨by omega, by simp; omega, n, ?_, hen⟩
          have hsi : s - i = (s - (i + 1)) + 1 := by omega
          rw [hsi, List.drop_succ_cons]
          exact hmn

lemma matchOriginal_some (cs : List Char) (n : Nat)
    (h : matchOriginal cs = some n) :
    opAwaitLit.length + 3 ≤ n ∧ n ≤ cs.length := by
  simp only [matchOriginal] at h
  split_ifs at h with h1 h2
  · injection h with h'
    have hlit : opAwaitLit.length ≤ cs.length :=
      (List.isPrefixOf_iff_prefix.mp h1).length_le
    have hrun := h2.1
    have hrun2 := h2.2.1
    have hafter : (cs.drop opAwaitLit.length).length = cs.length - opAwaitLit.length := by
      simp [List.length_drop]
    have hle : ((cs.drop opAwaitLit.length).takeWhile (fun c => c ≠ ';')).length <
        cs.length - opAwaitLit.length := by
      rw [← hafter]
      exact hrun
    omega

lemma opEdogMarker_infix_modified (token : List Char) :
    opEdogMarker <:+: opModifiedLine token :=
  ⟨opLit1 ++ token ++ "\";  ".data, [], by
    simp [opModifiedLine, List.append_assoc]⟩

lemma opEdogMarker_infix_replacement (token enc : List Char) :
    opEdogMarker <:+: opReplacement token enc := by
  refine (opEdogMarker_infix_modified token).trans ?_
  refine ⟨[], "  ".data ++ opOrigStart ++ enc ++ opOrigEnd, ?_⟩
  simp [opReplacement, List.append_assoc]

/-- The revert's success branch, abstracted over the sentinel positions. -/
lemma revert_op_success (C content orig : List Char) (a b : Nat)
    (hcont : pyContains C opEdogMarker = true)
    (h1 : findSub C opOrigStart = some a)
    (h2 : findSub C opOrigEnd = some b)
    (hlt : a + opOrigStart.length < b)
    (hdec : pyB64DecodeUtf8 ((C.drop (a + opOrigStart.length)).take
      (b - (a + opOrigStart.length))) = some orig)
    (hbs : ∀ c ∈ orig, c ≠ '\\')
    (hsub : subAll matchBig orig C = content)
    (hne : content ≠ C) :
    revert_gts_operation_manager_change C = (content, true) := by
  have hS : pyContains C opOrigStart = true := by
    rw [pyContains, h1]
    rfl
  have hE : pyContains C opOrigEnd = true := by
    rw [pyContains, h2]
    rfl
  simp only [revert_gts_operation_manager_change]
  rw [hcont]
  rw [if_neg (by decide)]
  rw [hS, hE]
  rw [if_pos (by decide)]
  simp only [h1, h2, Option.getD_some]
  rw [if_pos hlt, hdec]
  simp only [reSub_no_backslash matchBig orig C hbs, hsub, Prod.mk.injEq, bne_iff_ne]
  exact ⟨trivial, hne⟩

/-- On marker-free content with no manually hard-coded token line, the
apply is exactly the fresh splice. -/
lemma apply_op_manager_fresh (content token : List Char) (s e : Nat)
    (hm : pyContains content opEdogMarker = false)
    (hman : searchFirst matchManual content 0 = none)
    (hs : searchFirst matchOriginal content 0 = some (s, e)) :
    apply_gts_operation_manager_change content token =
      (opApplied content token s e, "applied") := by
  have hmod : pyContains content (opModifiedLine token) = false :=
    pyContains_false_of_isInfix content (opModifiedLine token) opEdogMarker
      (opEdogMarker_infix_modified token) hm
  simp only [apply_gts_operation_manager_change, hmod, hm, hman]
  simp only [Bool.false_eq_true, if_false, Option.isSome_none, Bool.false_and,
    Bool.and_self]
  simp only [opFreshApply, hs]
  simp only [opApplied, opReplacement, List.append_assoc]

/-- **C9** (amended): on marker-free content containing the
`await ... GenerateMwcV1TokenHeaderAsync(...);` statement and no manually
hard-coded token line, with a nonempty quote-free token, where the
replaced statement contains no backslash (hypothesis `hbs` — the revert
passes the decoded statement to `re.sub` as its replacement string, whose
template processing converts escapes like `\t` or raises on bad ones, so
a backslashed statement is not restored byte-for-byte), and provided the
two sentinels and the bypass-line pattern occur in the transformed file
only at the spot the apply introduced (hypotheses `h1`, `h2`, `h3`,
`h5` — a pre-existing sentinel or marker elsewhere violates them and is
exactly what the recorded counterexample exploits), the apply reports
`applied`, the base64 payload between the sentinels decodes to exactly
the replaced statement, and the revert restores the original content
byte-for-byte and reports `True`. -/
theorem op_manager_roundtrip (content token : List Char) (s e : Nat)
    (htq : ∀ c ∈ token, c ≠ '"') (htn : token ≠ [])
    (hm : pyContains content opEdogMarker = false)
    (hman : searchFirst matchManual content 0 = none)
    (hs : searchFirst matchOriginal content 0 = some (s, e))
    (hbs : ∀ c ∈ (content.drop s).take (e - s), c ≠ '\\')
    (h1 : findSub (opApplied content token s e) opOrigStart =
      some (s + (opModifiedLine token).length + 2))
    (h2 : findSub (opApplied content token s e) opOrigEnd =
      some (s + (opModifiedLine token).length + 2 + opOrigStart.length +
        (pyB64EncodeUtf8 ((content.drop s).take (e - s))).length))
    (h3 : ∀ j < s, matchBig ((opApplied content token s e).drop j) = none)
    (h5 : ∀ j ≤ (content.drop e).length, matchBig ((content.drop e).drop j) = none) :
    apply_gts_operation_manager_change content token =
      (opApplied content token s e, "applied") ∧
    pyB64DecodeUtf8 (pyB64EncodeUtf8 ((content.drop s).take (e - s))) =
      some ((content.drop s).take (e - s)) ∧
    revert_gts_operation_manager_change (opApplied content token s e) =
      (content, true) := by
  -- basic position facts from the original-pattern match
  obtain ⟨-, hslen, n, hmn, hen⟩ := searchFirst_eq_some matchOriginal content 0 s e hs
  simp only [Nat.sub_zero] at hslen hmn
  obtain ⟨hn3, hnlen⟩ := matchOriginal_some _ _ hmn
  have hse : s + n = e := hen.symm
  have helen : e ≤ content.length := by
    have := List.length_drop s content
    omega
  have horig_len : ((content.drop s).take (e - s)).length = e - s := by
    simp only [List.length_take, List.length_drop]
    omega
  have horig_ne : (content.drop s).take (e - s) ≠ [] := by
    rw [← List.length_pos, horig_len]
    omega
  set orig := (content.drop s).take (e - s) with horig
  set enc := pyB64EncodeUtf8 orig with hencdef
  have henc_ne : enc ≠ [] := pyB64EncodeUtf8_ne_nil orig horig_ne
  have henc_colon : ∀ c ∈ enc, c ≠ ':' := pyB64EncodeUtf8_ne_colon orig
  have htakelen : (content.take s).length = s := by
    simp only [List.length_take]
    omega
  -- the three statements
  refine ⟨apply_op_manager_fresh content token s e hm hman hs, pyB64_roundtrip orig, ?_⟩
  set C := opApplied content token s e with hCdef
  have hC2 : C = content.take s ++ (opReplacement token enc ++ content.drop e) := by
    simp [hCdef, opApplied, List.append_assoc]
  -- the marker is present in the transformed content
  have hcont : pyContains C opEdogMarker = true := by
    rw [pyContains_iff_isInfix]
    rw [hC2]
    refine (opEdogMarker_infix_replacement token enc).trans ?_
    refine ⟨content.take s, content.drop e, ?_⟩
    simp [List.append_assoc]
  -- the extracted slice is exactly the payload
  have hAshape : C = (content.take s ++ opModifiedLine token ++ "  ".data ++
      opOrigStart) ++ (enc ++ (opOrigEnd ++ content.drop e)) := by
    simp [hCdef, opApplied, opReplacement, List.append_assoc]
  have hAlen : (content.take s ++ opModifiedLine token ++ "  ".data ++
      opOrigStart).length = s + (opModifiedLine token).length + 2 + opOrigStart.length := by
    simp only [List.length_append, htakelen]
    have h2' : ([' ', ' '] : List Char).length = 2 := rfl
    omega
  have hslice : (C.drop (s + (opModifiedLine token).length + 2 + opOrigStart.length)).take
      enc.length = enc := by
    rw [hAshape, ← hAlen, List.drop_left]
    rw [show enc ++ (opOrigEnd ++ content.drop e) = enc ++ (opOrigEnd ++ content.drop e)
      from rfl]
    have := List.take_left enc (opOrigEnd ++ content.drop e)
    exact this
  -- no pattern match inside the suffix
  have hsuf : ∀ j, matchBig ((content.drop e).drop j) = none := by
    intro j
    by_cases hj : j ≤ (content.drop e).length
    · exact h5 j hj
    · rw [List.drop_eq_nil_of_le (by omega)]
      have h0 := h5 (content.drop e).length (le_refl _)
      rwa [List.drop_length] at h0
  -- the single substitution restores the original statement
  have hsub : subAll matchBig orig C = content := by
    rw [hC2]
    rw [subAll_single matchBig orig (content.take s) (opReplacement token enc)
      (content.drop e) ?h0 ?hpre ?hmid hsuf]
    · rw [show content.take s ++ (orig ++ content.drop e) =
        content.take s ++ orig ++ content.drop e from by simp [List.append_assoc]]
      rw [horig]
      rw [show content.take s ++ (content.drop s).take (e - s) = content.take e from by
        rw [← List.take_add]
        congr 1
        omega]
      exact List.take_append_drop e content
    case h0 =>
      simp only [opReplacement, List.length_append]
      have hi : 0 < opOrigStart.length := by decide
      omega
    case hpre =>
      intro j hj
      rw [htakelen] at hj
      have := h3 j hj
      rwa [hC2] at this
    case hmid =>
      exact matchBig_replacement token enc (content.drop e) htq htn henc_colon henc_ne
  -- the revert is the success branch
  refine revert_op_success C content orig (s + (opModifiedLine token).length + 2)
    (s + (opModifiedLine token).length + 2 + opOrigStart.length + enc.length)
    hcont h1 h2 ?_ ?_ hbs hsub ?_
  · have := List.length_pos.mpr henc_ne
    omega
  · rw [show s + (opModifiedLine token).length + 2 + opOrigStart.length +
        enc.length - (s + (opModifiedLine token).length + 2 + opOrigStart.length) =
        enc.length from by omega]
    rw [hslice, hencdef]
    exact pyB64_roundtrip orig
  · intro heq
    rw [heq, hcont] at hm
    exact Bool.noConfusion hm

/-- A pristine file with the original token statement, used to witness the
amended round trip. -/
def opPristineFile : List Char :=
  "before\nvar mwcV1TokenWithHeader = await HttpTokenUtils.GenerateMwcV1TokenHeaderAsync(headerParams, ct);\nafter\n".data

theorem op_manager_roundtrip_witness :
    apply_gts_operation_manager_change opPristineFile "TOK".data =
      (opApplied opPristineFile "TOK".data 7 103, "applied") ∧
    pyB64DecodeUtf8 (pyB64EncodeUtf8 ((opPristineFile.drop 7).take (103 - 7))) =
      some ((opPristineFile.drop 7).take (103 - 7)) ∧
    revert_gts_operation_manager_change (opApplied opPristineFile "TOK".data 7 103) =
      (opPristineFile, true) :=
  op_manager_roundtrip opPristineFile "TOK".data 7 103 (by decide) (by decide)
    (by decide) (by decide) (by decide) (by decide) (by decide) (by decide)
    (by decide) (by decide)

end Edog
